import Mathlib

/-!
# gftp: a one-way SFTP mirror

A shallow embedding of `gftp.go` (package `main`): the comparison policy
`chkLocalFile`, the byte formatter `byteCountIEC`, the configuration step of
`loadEnvironments` that builds the list of sync folders, the local store helper
`createIfNotExist`, the tree walker `getFolder` and the orchestrator loop
`getFolders`.

The Go code talks to two collaborators that are not part of the repository: the
local operating system (`os.Stat`, `os.MkdirAll`, `os.Create`, `io.Copy`,
`File.Sync`) and the SFTP session (`client.Walk`, `client.Open`, `File.Stat`).
They are modelled by an explicit local store (`LocalFS`, threaded through the
functions) and by a script carried by every traversal step that says how each
call made for that step answers.  A Go panic is an explicit `Outcome.panic`.
-/

namespace Gftp

/-! ## Results of Go calls -/

/-- Error values of Go's `error` interface, identified by their message. -/
abbrev Err := String

/-- Outcome of a Go call: either it returns a value or the goroutine panics. -/
inductive Outcome (α : Type) where
  | ret (a : α)
  | panic
  deriving DecidableEq, Repr

/-- Answer of `os.Stat(path)`: file information (only `Size()` is read by the
program), a not-exist error (`os.IsNotExist(err)` holds), or any other error.
In the last two cases the returned `os.FileInfo` is nil. -/
inductive StatResult where
  | info (size : Nat)
  | notExist
  | failed (e : Err)
  deriving DecidableEq, Repr

/-- Answer of `src.Stat()` on an open remote handle. -/
inductive SrcStat where
  | info (size : Nat)
  | failed (e : Err)
  deriving DecidableEq, Repr

/-! ## Comparison policy -/

/-- The function `chkLocalFile(path, src)` of gftp.go (lines 203-223), given the
answer `st, err := os.Stat(path)` and the answer of `src.Stat()`.  The second
call reuses `err`, so an `os.Stat` error other than not-exist is overwritten;
`st` is then nil and `st.Size()` dereferences it. -/
def chkLocalFile (st : StatResult) (srcStat : SrcStat) : Outcome (Bool × Option Err) :=
  match st with
  | .notExist => .ret (true, none)
  | _ =>
    match srcStat with
    | .failed e => .ret (false, some e)
    | .info rsize =>
      match st with
      | .info lsize => if lsize ≠ rsize then .ret (true, none) else .ret (false, none)
      | _ => .panic

/-! ## Byte formatting -/

/-- The constant `unit` of `byteCountIEC`. -/
def unit : Nat := 1024

/-- The loop `for n := b / unit; n >= unit; n /= unit { div *= unit; exp++ }`,
run for at most `fuel` tests of the loop condition; the result is `(div, exp)`
at loop exit, `none` when the fuel runs out first. -/
def iecLoop : Nat → Nat → Nat → Nat → Option (Nat × Nat)
  | 0, _, _, _ => none
  | fuel + 1, n, div, exp =>
    if n ≥ unit then iecLoop fuel (n / unit) (div * unit) (exp + 1) else some (div, exp)

/-- The value of `float64(b)` for a non-negative integer `b`: `b` rounded to a
53-bit significand, ties to even (exact below `2^53`). -/
def toFloat64 (b : Nat) : Nat :=
  if b < 2 ^ 53 then b
  else
    let e := Nat.log2 b - 52
    let q := b / 2 ^ e
    let r := b % 2 ^ e
    if 2 * r > 2 ^ e ∨ (2 * r = 2 ^ e ∧ q % 2 = 1) then (q + 1) * 2 ^ e else q * 2 ^ e

/-- Nearest integer to `num / den`, ties to even. -/
def roundHalfEven (num den : Nat) : Nat :=
  let q := num / den
  let r := num % den
  if 2 * r > den ∨ (2 * r = den ∧ q % 2 = 1) then q + 1 else q

/-- Go's `fmt.Sprintf("%.1f", x)` for the float64 `x = num / den` (here `den` is
a power of two, so the quotient is exact): the exact value rounded to one
decimal, ties to even. -/
def fmtF1 (num den : Nat) : String :=
  let t := roundHalfEven (10 * num) den
  toString (t / 10) ++ "." ++ toString (t % 10)

/-- The function `byteCountIEC(b int64)` of gftp.go (lines 225-237).  `none`
stands for a run that yields no string: the index `"KMGTPE"[exp]` out of range
(a Go panic) or the loop fuel (64 tests) exhausted. -/
def byteCountIEC (b : Int) : Option String :=
  if b < (unit : Int) then some (toString b ++ " B")
  else
    match iecLoop 64 (b.toNat / unit) unit 0 with
    | none => none
    | some (div, exp) =>
      match "KMGTPE".toList.get? exp with
      | none => none
      | some c => some (fmtF1 (toFloat64 b.toNat) div ++ " " ++ String.singleton c ++ "B")

/-! ## Strings and paths (Go standard library) -/

/-- Go's `strings.Split(s, sep)` for a one-character separator, on character
lists: the pieces between the separators, empty pieces included. -/
def splitChars (sep : Char) : List Char → List (List Char)
  | [] => [[]]
  | c :: cs =>
    if c = sep then [] :: splitChars sep cs
    else
      match splitChars sep cs with
      | [] => [[c]]
      | w :: ws => (c :: w) :: ws

/-- Go's `strings.Split(s, ",")`. -/
def splitComma (s : String) : List String :=
  (splitChars ',' s.data).map String.mk

/-- Go's `strings.TrimPrefix(s, pre)`: `s` without the leading `pre`, or `s`
itself when it does not start with `pre`. -/
def trimPrefixStr (s pre : String) : String :=
  if pre.data.isPrefixOf s.data then String.mk (s.data.drop pre.data.length) else s

/-- One pass of `filepath.Clean` over the path elements: empty and `.` elements
are dropped, `..` removes the element before it (it is dropped at the root of a
rooted path and kept at the start of a relative one).  `acc` is the stack of
elements kept so far, innermost first. -/
def cleanElems (rooted : Bool) : List String → List String → List String
  | acc, [] => acc.reverse
  | acc, e :: es =>
    if e = "" ∨ e = "." then cleanElems rooted acc es
    else if e = ".." then
      match acc with
      | [] => if rooted then cleanElems rooted [] es else cleanElems rooted [".."] es
      | top :: below =>
        if top = ".." then cleanElems rooted (".." :: acc) es
        else cleanElems rooted below es
    else cleanElems rooted (e :: acc) es

/-- Go's `filepath.Clean` on a slash-separated path. -/
def filepathClean (p : String) : String :=
  if p = "" then "."
  else
    let rooted := p.data.head? = some '/'
    let elems := cleanElems rooted [] ((splitChars '/' p.data).map String.mk)
    let body := String.intercalate "/" elems
    if rooted then "/" ++ body
    else if body = "" then "." else body

/-- Go's `filepath.Join(elem...)`: the elements from the first non-empty one on,
joined by slashes and cleaned; the empty string when every element is empty. -/
def filepathJoin : List String → String
  | [] => ""
  | e :: es => if e = "" then filepathJoin es else filepathClean (String.intercalate "/" (e :: es))

/-- The proper directory prefixes of a slash-separated path, outermost first:
for every slash, the characters before it.  `acc` holds the characters already
read. -/
def dirPrefixes (acc : List Char) : List Char → List (List Char)
  | [] => []
  | c :: cs =>
    if c = '/' then acc :: dirPrefixes (acc ++ [c]) cs else dirPrefixes (acc ++ [c]) cs

/-- The ancestor directories of a local path that `os.MkdirAll` may have to
create, outermost first (the root `/` and the empty prefix are left out). -/
def parentDirs (p : String) : List String :=
  ((dirPrefixes [] p.data).filter (fun d => d ≠ [])).map String.mk

/-! ## Configuration -/

/-- The type `syncFolder` of gftp.go: a remote root and the local root that
mirrors it. -/
structure syncFolder where
  Remote : String
  Local : String
  deriving DecidableEq, Repr

/-- The loop `for i, fld := range localFolders` of `loadEnvironments` (lines
275-281), from index `i` on: `remoteFolders[i].Local` is set to `fld`, or to
`"./"` for an empty `fld`.  Indexing past the end of `remoteFolders` is a Go
run-time panic (index out of range). -/
def assignLocals : List syncFolder → Nat → List String → Outcome (List syncFolder)
  | folders, _, [] => .ret folders
  | folders, i, fld :: rest =>
    match folders.get? i with
    | none => .panic
    | some f =>
      assignLocals (folders.set i { f with Local := if fld.length > 0 then fld else "./" })
        (i + 1) rest

/-- The part of `loadEnvironments` (lines 262-282) that builds `remoteFolders`
from the value of `REMOTE_PATHS` and the optional value of `LOCAL_PATHS`
(`none` when the key is absent). -/
def loadEnvironments (remotePaths : String) (localPaths : Option String) :
    Outcome (List syncFolder) :=
  let remoteFolders := (splitComma remotePaths).map (fun r => { Remote := r, Local := "./" })
  match localPaths with
  | none => .ret remoteFolders
  | some lp => assignLocals remoteFolders 0 (splitComma lp)

/-! ## The local store -/

/-- What a local path holds: a regular file or a directory, with the size that
`os.Stat` reports for it. -/
inductive Node where
  | file (size : Nat)
  | dir (size : Nat)
  deriving DecidableEq, Repr

/-- The size `Size()` of the `os.FileInfo` of a node. -/
def Node.size : Node → Nat
  | .file n => n
  | .dir n => n

/-- The local file system as the program observes it: the nodes by path (the
first binding of a path is the current one) and the size reported for a
directory that has just been made. -/
structure LocalFS where
  nodes : List (String × Node)
  newDirSize : Nat
  deriving DecidableEq, Repr

/-- The node bound to a path, if any. -/
def lookupNode : List (String × Node) → String → Option Node
  | [], _ => none
  | (q, nd) :: rest, p => if p = q then some nd else lookupNode rest p

/-- The call `os.Stat(path)`.  `fault` scripts a failure other than not-exist
(permission denied, not a directory, ...); otherwise the answer is read from
the store. -/
def osStat (fs : LocalFS) (fault : Option Err) (path : String) : StatResult :=
  match fault with
  | some e => .failed e
  | none =>
    match lookupNode fs.nodes path with
    | none => .notExist
    | some nd => .info nd.size

/-- Make one directory unless the path is already bound. -/
def addDir (fs : LocalFS) (p : String) : LocalFS :=
  match lookupNode fs.nodes p with
  | none => { fs with nodes := (p, .dir fs.newDirSize) :: fs.nodes }
  | some _ => fs

/-- The call `os.MkdirAll(path, os.ModePerm)`: the missing ancestors and the
path itself are made, outermost first.  `fault = some (e, k)` scripts a failure
with error `e` after the first `k` of them have been dealt with. -/
def osMkdirAll (fs : LocalFS) (fault : Option (Err × Nat)) (path : String) : LocalFS :=
  let dirs := parentDirs path ++ [path]
  match fault with
  | none => dirs.foldl addDir fs
  | some (_, k) => (dirs.take k).foldl addDir fs

/-- The content of the file at `path` becomes `n` bytes long (`os.Create`
truncates to 0, `io.Copy` then writes). -/
def writeFile (fs : LocalFS) (path : String) (n : Nat) : LocalFS :=
  { fs with nodes := (path, .file n) :: fs.nodes }

/-! ## Observable events -/

/-- The calls of a run that the properties below speak about, in the order in
which they happen. -/
inductive Event where
  /-- The call `createIfNotExist(path)`. -/
  | ensureDir (path : String)
  /-- The call `os.MkdirAll(path, _)` and whether it succeeded. -/
  | mkdirAll (path : String) (ok : Bool)
  /-- A remote handle returned by `client.Open(path)`. -/
  | openSrc (path : String)
  /-- The return of `chkLocalFile(localPath, _)` with its boolean. -/
  | compared (localPath : String) (allow : Bool)
  /-- The call `os.Create(localPath)` made for the step whose `w.Path()` is `path`. -/
  | create (path : String) (localPath : String)
  /-- The line `"... copied (...)"` printed after `io.Copy` moved `bytes` bytes. -/
  | copied (path : String) (bytes : Nat)
  /-- The call `srcFile.Close()` on the handle of `path`. -/
  | closeSrc (path : String)
  /-- The deferred call `dstFile.Close()`. -/
  | closeDst (localPath : String)
  /-- The line `"Error ..."` printed by `getFolders`. -/
  | reported (e : Err)
  deriving DecidableEq, Repr

/-! ## The local store adapter -/

/-- The function `createIfNotExist(path)` of gftp.go (lines 300-304): when
`os.Stat` says the path does not exist, `os.MkdirAll` is called and its result
is dropped; the function returns nothing. -/
def createIfNotExist (fs : LocalFS) (statFault : Option Err) (mkdirFault : Option (Err × Nat))
    (path : String) : LocalFS × List Event :=
  match osStat fs statFault path with
  | .notExist =>
    (osMkdirAll fs mkdirFault path, [.ensureDir path, .mkdirAll path mkdirFault.isNone])
  | _ => (fs, [.ensureDir path])

/-! ## The tree walker -/

/-- One traversal step of `client.Walk`: what `w.Path()`, `w.Err()` and
`w.Stat().IsDir()` answer, the number of bytes the remote file holds (reported
by `src.Stat()` and delivered by `io.Copy`), and the script of the calls that
`getFolder` may make for this step: a fault of `os.Stat` on the local
counterpart other than not-exist, and the failures of `os.MkdirAll`,
`client.Open`, `src.Stat`, `os.Create`, `io.Copy` (with the bytes written
before the failure) and `dstFile.Sync`. -/
structure WalkStep where
  path : String
  err : Option Err := none
  isDir : Bool := false
  size : Nat := 0
  statErr : Option Err := none
  mkdirErr : Option (Err × Nat) := none
  openErr : Option Err := none
  srcStatErr : Option Err := none
  createErr : Option Err := none
  copyErr : Option (Err × Nat) := none
  syncErr : Option Err := none
  deriving DecidableEq, Repr

/-- What the session and the operating system answer during one call of
`getFolder`: the script of `createIfNotExist` on the local root and the steps
that `client.Walk(sfld.Remote)` yields. -/
structure Walk where
  rootStatErr : Option Err := none
  rootMkdirErr : Option (Err × Nat) := none
  steps : List WalkStep
  deriving DecidableEq, Repr

/-- The answer of `src.Stat()` for a step. -/
def WalkStep.srcStat (s : WalkStep) : SrcStat :=
  match s.srcStatErr with
  | some e => .failed e
  | none => .info s.size

/-- The local counterpart of a step: `filepath.Join(sfld.Local, outPath)` with
`outPath := strings.TrimPrefix(w.Path(), sfld.Remote)`. -/
def localPath (sfld : syncFolder) (s : WalkStep) : String :=
  filepathJoin [sfld.Local, trimPrefixStr s.path sfld.Remote]

/-- How one pass through the body of the `for w.Step()` loop ends: the loop goes
on, `getFolder` returns an error, or the goroutine panics. -/
inductive Flow where
  | next
  | abort (e : Err)
  | crash
  deriving DecidableEq, Repr

/-- The effect of one pass through the loop body: how it ends, the local store
after it, the events it caused and the `dstFile.Close()` calls it deferred. -/
structure Visit where
  flow : Flow
  fs : LocalFS
  events : List Event
  deferred : List String
  deriving DecidableEq, Repr

/-- The `else` branch of the loop body of `getFolder` (lines 168-197): a file
entry is opened, compared and, when allowed, copied and synced. -/
def visitFile (sfld : syncFolder) (fs : LocalFS) (s : WalkStep) : Visit :=
  let lp := localPath sfld s
  match s.openErr with
  | some e => ⟨.abort e, fs, [], []⟩
  | none =>
    match chkLocalFile (osStat fs s.statErr lp) s.srcStat with
    | .panic => ⟨.crash, fs, [.openSrc s.path], []⟩
    | .ret (allow, some e) => ⟨.abort e, fs, [.openSrc s.path, .compared lp allow], []⟩
    | .ret (false, none) => ⟨.next, fs, [.openSrc s.path, .compared lp false], []⟩
    | .ret (true, none) =>
      match s.createErr with
      | some e => ⟨.abort e, fs, [.openSrc s.path, .compared lp true, .create s.path lp], []⟩
      | none =>
        match s.copyErr with
        | some (e, written) =>
          ⟨.abort e, writeFile fs lp written,
            [.openSrc s.path, .compared lp true, .create s.path lp], [lp]⟩
        | none =>
          match s.syncErr with
          | some e =>
            ⟨.abort e, writeFile fs lp s.size,
              [.openSrc s.path, .compared lp true, .create s.path lp, .copied s.path s.size], [lp]⟩
          | none =>
            ⟨.next, writeFile fs lp s.size,
              [.openSrc s.path, .compared lp true, .create s.path lp, .copied s.path s.size,
                .closeSrc s.path], [lp]⟩

/-- The body of the `for w.Step()` loop of `getFolder` (lines 158-198) for one
step. -/
def visitStep (sfld : syncFolder) (fs : LocalFS) (s : WalkStep) : Visit :=
  match s.err with
  | some _ => ⟨.next, fs, [], []⟩
  | none =>
    if s.isDir then
      if (trimPrefixStr s.path sfld.Remote).length > 0 then
        let r := createIfNotExist fs s.statErr s.mkdirErr (localPath sfld s)
        ⟨.next, r.1, r.2, []⟩
      else ⟨.next, fs, [], []⟩
    else visitFile sfld fs s

/-- The state in which a call of `getFolder` ends: what it returns (or the
panic), the local store, the events in order, the steps whose loop body was
entered, and the local paths whose `dstFile.Close()` was deferred. -/
structure FolderRun where
  result : Outcome (Option Err)
  fs : LocalFS
  trace : List Event
  visited : List WalkStep
  deferred : List String
  deriving DecidableEq, Repr

/-- The loop `for w.Step() { ... }` of `getFolder` over the steps that are still
to come. -/
def walkSteps (sfld : syncFolder) : LocalFS → List WalkStep → FolderRun
  | fs, [] => ⟨.ret none, fs, [], [], []⟩
  | fs, s :: rest =>
    let v := visitStep sfld fs s
    match v.flow with
    | .next =>
      let r := walkSteps sfld v.fs rest
      ⟨r.result, r.fs, v.events ++ r.trace, s :: r.visited, v.deferred ++ r.deferred⟩
    | .abort e => ⟨.ret (some e), v.fs, v.events, [s], v.deferred⟩
    | .crash => ⟨.panic, v.fs, v.events, [s], v.deferred⟩

/-- The function `getFolder(client, sfld)` of gftp.go (lines 154-201): the local
root is ensured, the steps are walked, and on the way out the deferred
`dstFile.Close()` calls run, last deferred first. -/
def getFolder (sfld : syncFolder) (w : Walk) (fs : LocalFS) : FolderRun :=
  let r0 := createIfNotExist fs w.rootStatErr w.rootMkdirErr (filepathJoin [sfld.Local])
  let r := walkSteps sfld r0.1 w.steps
  ⟨r.result, r.fs, r0.2 ++ r.trace ++ r.deferred.reverse.map Event.closeDst, r.visited,
    r.deferred⟩

/-! ## The orchestrator -/

/-- The state in which the loop of `getFolders` ends: the local store, the
folders for which `getFolder` was called, what each call returned, the events
in order, and whether a panic ended the process. -/
structure SyncRun where
  fs : LocalFS
  walked : List syncFolder
  results : List (Outcome (Option Err))
  trace : List Event
  crashed : Bool
  deriving DecidableEq, Repr

/-- The loop of `getFolders` (lines 146-151) once `sftp.NewClient` has returned
a client: every configured folder comes with the walk the session serves for
it.  An error returned by `getFolder` is printed and the loop goes on; a panic
is not recovered anywhere, so it ends the run. -/
def getFolders : LocalFS → List (syncFolder × Walk) → SyncRun
  | fs, [] => ⟨fs, [], [], [], false⟩
  | fs, (sfld, w) :: rest =>
    let r := getFolder sfld w fs
    match r.result with
    | .panic => ⟨r.fs, [sfld], [.panic], r.trace, true⟩
    | .ret none =>
      let rr := getFolders r.fs rest
      ⟨rr.fs, sfld :: rr.walked, .ret none :: rr.results, r.trace ++ rr.trace, rr.crashed⟩
    | .ret (some e) =>
      let rr := getFolders r.fs rest
      ⟨rr.fs, sfld :: rr.walked, .ret (some e) :: rr.results,
        r.trace ++ .reported e :: rr.trace, rr.crashed⟩

/-! ## Predicates used in the statements -/

/-- The events that belong to copying a file: `chkLocalFile` returning true,
`os.Create`, and the report of a finished `io.Copy`. -/
def Event.copies : Event → Bool
  | .compared _ allow => allow
  | .create _ _ => true
  | .copied _ _ => true
  | _ => false

/-- The file entries of a walk that `getFolder` handles (steps without a listing
error that are not directories), each as its local counterpart and the size of
the remote file. -/
def fileTargets (sfld : syncFolder) (steps : List WalkStep) : List (String × Nat) :=
  (steps.filter (fun s => s.err.isNone && !s.isDir)).map (fun s => (localPath sfld s, s.size))

/-- The file entries of all the configured folders. -/
def allTargets : List (syncFolder × Walk) → List (String × Nat)
  | [] => []
  | (sfld, w) :: rest => fileTargets sfld w.steps ++ allTargets rest

/-- No two file entries that are mirrored to the same local path differ in
size. -/
def ConsistentTargets (ts : List (String × Nat)) : Prop :=
  ∀ a ∈ ts, ∀ b ∈ ts, a.1 = b.1 → a.2 = b.2

instance (ts : List (String × Nat)) : Decidable (ConsistentTargets ts) := by
  unfold ConsistentTargets
  infer_instance

/-- The remote directories strictly between the remote root and an entry: the
directory prefixes of the entry's path that start with the root and have a
non-empty relative path. -/
def remoteAncestors (root path : String) : List String :=
  ((dirPrefixes [] path.data).map String.mk).filter
    (fun d => root.data.isPrefixOf d.data && decide ((trimPrefixStr d root).length > 0))

/-- The traversal yields every directory before the entries beneath it: each
file entry that is visited comes after a directory step, without a listing
error, for each of its remote ancestors.  `seen` lists the directories yielded
so far. -/
def dirsFirst (root : String) : List String → List WalkStep → Bool
  | _, [] => true
  | seen, s :: rest =>
    match s.err with
    | some _ => dirsFirst root seen rest
    | none =>
      if s.isDir then dirsFirst root (s.path :: seen) rest
      else (remoteAncestors root s.path).all (fun d => decide (d ∈ seen))
        && dirsFirst root seen rest

/-- The local directory that mirrors the remote directory `d`. -/
def localDir (sfld : syncFolder) (d : String) : String :=
  filepathJoin [sfld.Local, trimPrefixStr d sfld.Remote]

/-- A check of a trace: at every `os.Create`, the local counterparts of all the
remote ancestors of the file are among the paths that `createIfNotExist` has
been called on (`ens` holds those called so far). -/
def createsCovered (sfld : syncFolder) : List String → List Event → Bool
  | _, [] => true
  | ens, .ensureDir p :: tr => createsCovered sfld (p :: ens) tr
  | ens, .create rp _ :: tr =>
    (remoteAncestors sfld.Remote rp).all (fun d => decide (localDir sfld d ∈ ens))
      && createsCovered sfld ens tr
  | ens, _ :: tr => createsCovered sfld ens tr

/-- The directory steps for which the loop body calls `createIfNotExist`: no
listing error, a directory, a non-empty relative path. -/
def WalkStep.makesDir (sfld : syncFolder) (s : WalkStep) : Bool :=
  s.err.isNone && s.isDir && decide ((trimPrefixStr s.path sfld.Remote).length > 0)

/-- The `createIfNotExist` calls of a trace, in order. -/
def ensuredDirs : List Event → List String
  | [] => []
  | .ensureDir p :: tr => p :: ensuredDirs tr
  | _ :: tr => ensuredDirs tr

/-- A step failed with `e`: one of the calls made for a file entry is scripted
to fail with that error. -/
def WalkStep.failsWith (s : WalkStep) (e : Err) : Prop :=
  s.openErr = some e ∨ s.srcStatErr = some e ∨ s.createErr = some e ∨
    (∃ n, s.copyErr = some (e, n)) ∨ s.syncErr = some e

/-- The local store holds the target: the path is bound and `os.Stat` reports
the size of the remote file for it. -/
def Holds (fs : LocalFS) (t : String × Nat) : Prop :=
  ∃ nd, lookupNode fs.nodes t.1 = some nd ∧ nd.size = t.2

/-- The file entries of the folders for which `os.Stat` and `client.Open` are
not scripted to fail. -/
def CleanSteps (steps : List WalkStep) : Prop :=
  ∀ s ∈ steps, s.err = none → s.isDir = false → s.statErr = none ∧ s.openErr = none

/-- The path exists in the local store: `os.Stat` finds a file or a directory
there. -/
def PathExists (fs : LocalFS) (p : String) : Prop :=
  lookupNode fs.nodes p ≠ none

instance (fs : LocalFS) (p : String) : Decidable (PathExists fs p) := by
  unfold PathExists
  infer_instance

/-! ## Scenarios -/

/-- An empty local store. -/
def emptyFS : LocalFS := ⟨[], 4096⟩

/-- The folder of the end-to-end scenario: `/data` mirrored to `/backup`. -/
def dataFolder : syncFolder := ⟨"/data", "/backup"⟩

/-- The walk of `/data` holding `a.txt` (10 bytes) and `sub/b.txt` (20 bytes). -/
def dataWalk : Walk :=
  { steps := [{ path := "/data", isDir := true }, { path := "/data/a.txt", size := 10 },
      { path := "/data/sub", isDir := true }, { path := "/data/sub/b.txt", size := 20 }] }

/-- A local store in which `/backup/a.txt` already mirrors the remote file. -/
def mirroredFS : LocalFS :=
  ⟨[("/backup/a.txt", .file 10), ("/backup", .dir 4096)], 4096⟩

/-- The walk of `/data` holding only `a.txt` (10 bytes). -/
def oneFileWalk : Walk :=
  { steps := [{ path := "/data", isDir := true }, { path := "/data/a.txt", size := 10 }] }

/-- The same walk when `dstFile.Sync()` fails. -/
def syncFailWalk : Walk :=
  { steps := [{ path := "/data", isDir := true },
      { path := "/data/a.txt", size := 10, syncErr := some "sync /backup/a.txt: input/output error" }] }

/-- A local store in which `/backup/sub` is a regular file. -/
def blockedFS : LocalFS :=
  ⟨[("/backup/sub", .file 3), ("/backup", .dir 4096)], 4096⟩

/-- The walk of `/data` holding `sub/b.txt` and `z.txt`, when `os.Stat` of
`/backup/sub/b.txt` fails because `/backup/sub` is not a directory. -/
def blockedWalk : Walk :=
  { steps := [{ path := "/data", isDir := true }, { path := "/data/sub", isDir := true },
      { path := "/data/sub/b.txt", size := 20,
        statErr := some "stat /backup/sub/b.txt: not a directory" },
      { path := "/data/z.txt", size := 5 }] }

/-- A second folder, `/logs` mirrored to `/backup-logs`. -/
def logsFolder : syncFolder := ⟨"/logs", "/backup-logs"⟩

/-- The walk of `/logs` holding `x.log` (7 bytes). -/
def logsWalk : Walk :=
  { steps := [{ path := "/logs", isDir := true }, { path := "/logs/x.log", size := 7 }] }

/-- A local store in which `/backup` exists and already holds `t.txt`. -/
def readOnlyFS : LocalFS :=
  ⟨[("/backup/t.txt", .file 10), ("/backup", .dir 4096)], 4096⟩

/-- The walk of `/data` holding the empty directory `sub` and `t.txt`, when
making `/backup/sub` is refused. -/
def mkdirFailWalk : Walk :=
  { steps := [{ path := "/data", isDir := true },
      { path := "/data/sub", isDir := true,
        mkdirErr := some ("mkdir /backup/sub: permission denied", 1) },
      { path := "/data/t.txt", size := 10 }] }

/-- The walk of `/data` holding `sub/b.txt`, when making `/backup/sub` is
refused and `os.Create` then finds no directory to create the file in. -/
def subRefusedWalk : Walk :=
  { steps := [{ path := "/data", isDir := true },
      { path := "/data/sub", isDir := true,
        mkdirErr := some ("mkdir /backup/sub: permission denied", 1) },
      { path := "/data/sub/b.txt", size := 20,
        createErr := some "open /backup/sub/b.txt: no such file or directory" }] }

/-- A local store holding only the working directory. -/
def cwdFS : LocalFS := ⟨[(".", .dir 4096)], 4096⟩

/-- Two remote roots, both mirrored to the working directory, each holding an
`a.txt` of its own size. -/
def twoRoots : List (syncFolder × Walk) :=
  [(⟨"/r1", "./"⟩,
      { steps := [{ path := "/r1", isDir := true }, { path := "/r1/a.txt", size := 10 }] }),
    (⟨"/r2", "./"⟩,
      { steps := [{ path := "/r2", isDir := true }, { path := "/r2/a.txt", size := 20 }] })]

/-! ## Byte formatting -/

theorem iecLoop_exit (j : Nat) : ∀ (fuel n div exp : Nat), j < fuel →
    (j = 0 ∨ 1024 ^ j ≤ n) → n < 1024 ^ (j + 1) →
    iecLoop fuel n div exp = some (div * 1024 ^ j, exp + j) := by
  induction j with
  | zero =>
    intro fuel n div exp hf _ hn
    obtain ⟨f, rfl⟩ : ∃ f, fuel = f + 1 := ⟨fuel - 1, by omega⟩
    have hn' : ¬ n ≥ unit := by simp [unit] at *; omega
    simp [iecLoop, hn']
  | succ j ih =>
    intro fuel n div exp hf hlow hn
    obtain ⟨f, rfl⟩ : ∃ f, fuel = f + 1 := ⟨fuel - 1, by omega⟩
    have hlow' : 1024 ^ (j + 1) ≤ n := by
      rcases hlow with h | h
      · omega
      · exact h
    have h1024 : 1024 ≤ 1024 ^ (j + 1) := by
      calc 1024 = 1024 ^ 1 := by norm_num
        _ ≤ 1024 ^ (j + 1) := Nat.pow_le_pow_right (by norm_num) (by omega)
    have hge : n ≥ unit := by simp only [unit]; omega
    have hdiv_lo : 1024 ^ j ≤ n / 1024 := by
      rw [Nat.le_div_iff_mul_le (by norm_num)]
      calc 1024 ^ j * 1024 = 1024 ^ (j + 1) := by ring
        _ ≤ n := hlow'
    have hdiv_hi : n / 1024 < 1024 ^ (j + 1) := by
      rw [Nat.div_lt_iff_lt_mul (by norm_num)]
      calc n < 1024 ^ (j + 1 + 1) := hn
        _ = 1024 ^ (j + 1) * 1024 := by ring
    have := ih f (n / 1024) (div * 1024) (exp + 1) (by omega) (Or.inr hdiv_lo) hdiv_hi
    rw [iecLoop, if_pos hge]
    simp only [unit] at this ⊢
    rw [this]
    congr 2
    · ring
    · ring

theorem toFloat64_nearest (n : Nat) (h53 : 2 ^ 53 ≤ n) :
    ∃ m : Nat, toFloat64 n = m * 2 ^ (Nat.log2 n - 52) ∧ 2 ^ 52 ≤ m ∧ m ≤ 2 ^ 53 ∧
      2 * (toFloat64 n - n) ≤ 2 ^ (Nat.log2 n - 52) ∧
      2 * (n - toFloat64 n) ≤ 2 ^ (Nat.log2 n - 52) := by
  have hn0 : n ≠ 0 := by
    have : 0 < 2 ^ 53 := by norm_num
    omega
  have hL : 53 ≤ Nat.log2 n := (Nat.le_log2 hn0).2 h53
  have hlo : 2 ^ Nat.log2 n ≤ n := Nat.log2_self_le hn0
  have hhi : n < 2 ^ (Nat.log2 n + 1) := Nat.lt_log2_self
  obtain ⟨e, he⟩ : ∃ e, Nat.log2 n = e + 52 := ⟨Nat.log2 n - 52, by omega⟩
  have hsub : Nat.log2 n - 52 = e := by omega
  rw [he] at hlo hhi
  rw [hsub]
  have hP : 0 < 2 ^ e := Nat.pow_pos (by norm_num)
  have hq_lo : 2 ^ 52 ≤ n / 2 ^ e := by
    rw [Nat.le_div_iff_mul_le hP]
    calc 2 ^ 52 * 2 ^ e = 2 ^ (e + 52) := by rw [← Nat.pow_add]; congr 1; omega
      _ ≤ n := hlo
  have hq_hi : n / 2 ^ e < 2 ^ 53 := by
    rw [Nat.div_lt_iff_lt_mul hP]
    calc n < 2 ^ (e + 52 + 1) := hhi
      _ = 2 ^ 53 * 2 ^ e := by rw [← Nat.pow_add]; congr 1; omega
  have hdm : 2 ^ e * (n / 2 ^ e) + n % 2 ^ e = n := Nat.div_add_mod n (2 ^ e)
  have hr : n % 2 ^ e < 2 ^ e := Nat.mod_lt n hP
  have hnot : ¬ n < 2 ^ 53 := by omega
  have hval : toFloat64 n =
      if 2 * (n % 2 ^ e) > 2 ^ e ∨ (2 * (n % 2 ^ e) = 2 ^ e ∧ n / 2 ^ e % 2 = 1)
      then (n / 2 ^ e + 1) * 2 ^ e else n / 2 ^ e * 2 ^ e := by
    unfold toFloat64
    rw [if_neg hnot]
    simp only [hsub]
  rw [hval]
  have hmul : n / 2 ^ e * 2 ^ e = 2 ^ e * (n / 2 ^ e) := Nat.mul_comm _ _
  have hmul1 : (n / 2 ^ e + 1) * 2 ^ e = 2 ^ e * (n / 2 ^ e) + 2 ^ e := by
    rw [Nat.add_mul, Nat.one_mul, hmul]
  by_cases hup : 2 * (n % 2 ^ e) > 2 ^ e ∨ (2 * (n % 2 ^ e) = 2 ^ e ∧ n / 2 ^ e % 2 = 1)
  · rw [if_pos hup]
    refine ⟨n / 2 ^ e + 1, rfl, by omega, by omega, ?_, ?_⟩
    · rw [hmul1]
      rcases hup with h | h <;> omega
    · rw [hmul1]; omega
  · rw [if_neg hup]
    refine ⟨n / 2 ^ e, rfl, hq_lo, by omega, ?_, ?_⟩
    · rw [hmul]; omega
    · rw [hmul]
      have : ¬ 2 * (n % 2 ^ e) > 2 ^ e := fun h => hup (Or.inl h)
      omega

theorem byteCountIEC_large (n k : Nat) (c : Char) (hk1 : 1 ≤ k) (hk6 : k ≤ 6)
    (hlo : 1024 ^ k ≤ n) (hhi : n < 1024 ^ (k + 1))
    (hc : "KMGTPE".toList.get? (k - 1) = some c) :
    byteCountIEC (n : Int) =
      some (fmtF1 (toFloat64 n) (1024 ^ k) ++ " " ++ String.singleton c ++ "B") := by
  have h1024 : 1024 ≤ 1024 ^ k := by
    calc 1024 = 1024 ^ 1 := by norm_num
      _ ≤ 1024 ^ k := Nat.pow_le_pow_right (by norm_num) hk1
  have hn : 1024 ≤ n := le_trans h1024 hlo
  have hnot : ¬ ((n : Int) < (unit : Int)) := by simp [unit]; exact_mod_cast hn
  obtain ⟨j, hj⟩ : ∃ j, k = j + 1 := ⟨k - 1, by omega⟩
  have hdiv_lo : 1024 ^ j ≤ n / 1024 := by
    rw [Nat.le_div_iff_mul_le (by norm_num)]
    calc 1024 ^ j * 1024 = 1024 ^ (j + 1) := by ring
      _ ≤ n := by rw [← hj]; exact hlo
  have hdiv_hi : n / 1024 < 1024 ^ (j + 1) := by
    rw [Nat.div_lt_iff_lt_mul (by norm_num)]
    calc n < 1024 ^ (k + 1) := hhi
      _ = 1024 ^ (j + 1) * 1024 := by rw [hj]; ring
  have hloop := iecLoop_exit j 64 (n / 1024) unit 0 (by omega) (Or.inr hdiv_lo) hdiv_hi
  have hdiv : unit * 1024 ^ j = 1024 ^ k := by rw [hj]; simp only [unit]; ring
  have hc' : "KMGTPE".toList.get? j = some c := by
    have : k - 1 = j := by omega
    rw [← this]; exact hc
  simp only [byteCountIEC, hnot, if_false, Int.toNat_ofNat]
  simp only [unit] at hloop hdiv
  simp only [unit]
  rw [hloop]
  simp only [Nat.zero_add, hc', hdiv]

/-- C8, amended: for `0 <= b < 1024` the result is the decimal numeral of `b`
followed by `" B"`.  For `1024 <= b <= 2^63-1` there is exactly one `k` with
`1024^k <= b < 1024^(k+1)`; it lies between 1 and 6, so the unit letter is the
`k`-th of `KMGTPE` and the divisor `1024^k` fits an int64, and the result is
`float64(b) / 1024^k` printed with one decimal (nearest, ties to even), a
space, that letter and `B`.  Here `float64(b)` is `b` itself below `2^53`, and
from `2^53` on it is a multiple `m * 2^e` with `e = floor(log2 b) - 52` and
`2^52 <= m <= 2^53` that is at most half of `2^e` away from `b`.  500, 2048 and
1048576 give `500 B`, `2.0 KB` and `1.0 MB`. -/
theorem byteCountIEC_spec (b : Int) (h0 : 0 ≤ b) (h63 : b ≤ 2 ^ 63 - 1) :
    (b < 1024 → byteCountIEC b = some (toString b.toNat ++ " B")) ∧
    (1024 ≤ b → ∃ (k : Nat) (c : Char),
        1 ≤ k ∧ k ≤ 6 ∧ 1024 ^ k ≤ b.toNat ∧ b.toNat < 1024 ^ (k + 1) ∧
        (∀ j : Nat, 1024 ^ j ≤ b.toNat → b.toNat < 1024 ^ (j + 1) → j = k) ∧
        1024 ^ k < 2 ^ 63 ∧
        "KMGTPE".toList.get? (k - 1) = some c ∧
        (b.toNat < 2 ^ 53 → toFloat64 b.toNat = b.toNat) ∧
        (2 ^ 53 ≤ b.toNat → ∃ m : Nat,
          toFloat64 b.toNat = m * 2 ^ (Nat.log2 b.toNat - 52) ∧ 2 ^ 52 ≤ m ∧ m ≤ 2 ^ 53 ∧
          2 * (toFloat64 b.toNat - b.toNat) ≤ 2 ^ (Nat.log2 b.toNat - 52) ∧
          2 * (b.toNat - toFloat64 b.toNat) ≤ 2 ^ (Nat.log2 b.toNat - 52)) ∧
        byteCountIEC b =
          some (fmtF1 (toFloat64 b.toNat) (1024 ^ k) ++ " " ++ String.singleton c ++ "B")) ∧
    byteCountIEC 500 = some "500 B" ∧
    byteCountIEC 2048 = some "2.0 KB" ∧
    byteCountIEC 1048576 = some "1.0 MB" := by
  obtain ⟨n, rfl⟩ := Int.eq_ofNat_of_zero_le h0
  have hn63 : n < 2 ^ 63 := by
    have : (n : Int) < 2 ^ 63 := by omega
    exact_mod_cast this
  refine ⟨?_, ?_, by decide, by decide, by decide⟩
  · intro hlt
    have : (n : Int) < (unit : Int) := by simpa [unit] using hlt
    simp [byteCountIEC, this]
    rfl
  · intro hge
    have hn : 1024 ≤ n := by exact_mod_cast hge
    set k := Nat.log 1024 n with hk
    have hlo : 1024 ^ k ≤ n := Nat.pow_log_le_self 1024 (by omega)
    have hhi : n < 1024 ^ (k + 1) := Nat.lt_pow_succ_log_self (by norm_num) n
    have hk1 : 1 ≤ k := by
      by_contra hc
      have : k = 0 := by omega
      rw [this] at hhi
      norm_num at hhi
      omega
    have hk6 : k ≤ 6 := by
      by_contra hc
      have h7 : 1024 ^ 7 ≤ 1024 ^ k := Nat.pow_le_pow_right (by norm_num) (by omega)
      have : (1024 : Nat) ^ 7 = 2 ^ 70 := by norm_num
      have : (2 : Nat) ^ 63 < 2 ^ 70 := by norm_num
      omega
    have huniq : ∀ j : Nat, 1024 ^ j ≤ n → n < 1024 ^ (j + 1) → j = k := by
      intro j hj1 hj2
      have a : j < k + 1 :=
        (Nat.pow_lt_pow_iff_right (by norm_num : 1 < 1024)).1 (lt_of_le_of_lt hj1 hhi)
      have b : k < j + 1 :=
        (Nat.pow_lt_pow_iff_right (by norm_num : 1 < 1024)).1 (lt_of_le_of_lt hlo hj2)
      omega
    have hpow : 1024 ^ k < 2 ^ 63 := lt_of_le_of_lt hlo hn63
    have hc : ∃ c, "KMGTPE".toList.get? (k - 1) = some c := by
      obtain ⟨j, hj⟩ : ∃ j, k - 1 = j := ⟨_, rfl⟩
      rw [hj]
      have : j ≤ 5 := by omega
      interval_cases j <;> exact ⟨_, rfl⟩
    obtain ⟨c, hc⟩ := hc
    refine ⟨k, c, hk1, hk6, hlo, hhi, huniq, hpow, hc, ?_, ?_, ?_⟩
    · intro h53
      unfold toFloat64
      rw [if_pos h53]
    · intro h53
      exact toFloat64_nearest _ h53
    · exact byteCountIEC_large n k c hk1 hk6 hlo hhi hc

/-- C8, witness: 1536 bytes are `1.5 KB`. -/
theorem byteCountIEC_spec_witness :
    (0 : Int) ≤ 1536 ∧ (1536 : Int) ≤ 2 ^ 63 - 1 ∧
    (1024 ≤ (1536 : Int) → ∃ (k : Nat) (c : Char),
        1 ≤ k ∧ k ≤ 6 ∧ 1024 ^ k ≤ (1536 : Int).toNat ∧ (1536 : Int).toNat < 1024 ^ (k + 1) ∧
        (∀ j : Nat, 1024 ^ j ≤ (1536 : Int).toNat → (1536 : Int).toNat < 1024 ^ (j + 1) →
          j = k) ∧
        1024 ^ k < 2 ^ 63 ∧
        "KMGTPE".toList.get? (k - 1) = some c ∧
        ((1536 : Int).toNat < 2 ^ 53 → toFloat64 (1536 : Int).toNat = (1536 : Int).toNat) ∧
        (2 ^ 53 ≤ (1536 : Int).toNat → ∃ m : Nat,
          toFloat64 (1536 : Int).toNat = m * 2 ^ (Nat.log2 (1536 : Int).toNat - 52) ∧
          2 ^ 52 ≤ m ∧ m ≤ 2 ^ 53 ∧
          2 * (toFloat64 (1536 : Int).toNat - (1536 : Int).toNat)
            ≤ 2 ^ (Nat.log2 (1536 : Int).toNat - 52) ∧
          2 * ((1536 : Int).toNat - toFloat64 (1536 : Int).toNat)
            ≤ 2 ^ (Nat.log2 (1536 : Int).toNat - 52)) ∧
        byteCountIEC 1536 =
          some (fmtF1 (toFloat64 (1536 : Int).toNat) (1024 ^ k) ++ " " ++ String.singleton c
            ++ "B")) ∧
    byteCountIEC 1536 = some "1.5 KB" :=
  ⟨by decide, by decide, (byteCountIEC_spec 1536 (by decide) (by decide)).2.1, by decide⟩

theorem toFloat64_tie : toFloat64 9851624184872959 = 9851624184872960 := by
  have hn0 : (9851624184872959 : Nat) ≠ 0 := by decide
  have h1 : 53 ≤ Nat.log2 9851624184872959 := (Nat.le_log2 hn0).2 (by decide)
  have h2 : Nat.log2 9851624184872959 < 54 := (Nat.log2_lt hn0).2 (by decide)
  have hlog : Nat.log2 9851624184872959 = 53 := by omega
  unfold toFloat64
  rw [hlog]
  decide

/-- C8, counterexample: for `b = 35 * 2^48 - 1` (about 8.75 PiB) the exact
quotient `b / 1024^5` lies in `[8.70, 8.75)` and shows as `8.7` with one
decimal, but `float64(b)` is `35 * 2^48`, the quotient of the floats is exactly
8.75, and `byteCountIEC` prints `8.8 PB`. -/
theorem byteCountIEC_shows_the_float :
    (9851624184872959 : Nat) = 35 * 2 ^ 48 - 1 ∧
    1024 ^ 5 ≤ 9851624184872959 ∧ 9851624184872959 < 1024 ^ 6 ∧
    870 * 1024 ^ 5 ≤ 100 * 9851624184872959 ∧ 100 * 9851624184872959 < 875 * 1024 ^ 5 ∧
    fmtF1 9851624184872959 (1024 ^ 5) = "8.7" ∧
    byteCountIEC 9851624184872959 = some "8.8 PB" := by
  refine ⟨by decide, by decide, by decide, by decide, by decide, by decide, ?_⟩
  have h := byteCountIEC_large 9851624184872959 5 'P' (by decide) (by decide) (by decide)
    (by decide) (by decide)
  rw [toFloat64_tie] at h
  have hcast : ((9851624184872959 : Nat) : Int) = (9851624184872959 : Int) := by norm_cast
  rw [hcast] at h
  rw [h]
  decide

/-! ## The comparison policy -/

/-- C1: when the remote stat succeeds, `chkLocalFile` returns true exactly when
the local file does not exist or its size differs from the remote size, returns
false for an existing local file of equal size, and returns no error in any of
the three cases. -/
theorem chkLocalFile_policy (lsize rsize : Nat) :
    chkLocalFile .notExist (.info rsize) = .ret (true, none) ∧
    chkLocalFile (.info lsize) (.info rsize) = .ret (decide (lsize ≠ rsize), none) ∧
    chkLocalFile (.info rsize) (.info rsize) = .ret (false, none) ∧
    (∀ st : StatResult, (st = .notExist ∨ ∃ l, st = .info l) →
      ∃ allow, chkLocalFile st (.info rsize) = .ret (allow, none) ∧
        (allow = true ↔ (st = .notExist ∨ ∃ l, st = .info l ∧ l ≠ rsize))) := by
  have h2 : ∀ l : Nat,
      chkLocalFile (.info l) (.info rsize) = .ret (decide (l ≠ rsize), none) := by
    intro l
    by_cases h : l = rsize <;> simp [chkLocalFile, h]
  refine ⟨rfl, h2 lsize, by simp [chkLocalFile], ?_⟩
  intro st hst
  rcases hst with rfl | ⟨l, rfl⟩
  · exact ⟨true, rfl, by simp⟩
  · exact ⟨decide (l ≠ rsize), h2 l, by simp⟩

/-- C6: an `os.Stat` failure other than not-exist is never returned by
`chkLocalFile`: with a working remote stat the nil `st` is dereferenced and the
call panics, and with a failing remote stat the remote error is returned in its
place; only the not-exist case is handled. -/
theorem chkLocalFile_local_stat_error (e e' : Err) (rsize : Nat) :
    chkLocalFile (.failed e) (.info rsize) = .panic ∧
    chkLocalFile (.failed e) (.failed e') = .ret (false, some e') ∧
    chkLocalFile .notExist (.info rsize) = .ret (true, none) := by
  refine ⟨rfl, rfl, rfl⟩

/-! ## Configuration -/

/-- C9: with `REMOTE_PATHS=/a` and `LOCAL_PATHS=x,y` the loop over the local
paths indexes `remoteFolders[1]` in a slice of length one: `loadEnvironments`
panics and builds no folder list. -/
theorem loadEnvironments_longer_local_list :
    loadEnvironments "/a" (some "x,y") = .panic := by
  decide

/-! ## Remote handles -/

/-- C10: a remote handle is closed only after a successful copy and sync.  When
the local file already matches, and when the sync fails, `getFolder` returns
with the handle of `/data/a.txt` opened and never closed. -/
theorem getFolder_leaves_handle_open :
    (getFolder dataFolder oneFileWalk mirroredFS).result = .ret none ∧
    Event.openSrc "/data/a.txt" ∈ (getFolder dataFolder oneFileWalk mirroredFS).trace ∧
    Event.closeSrc "/data/a.txt" ∉ (getFolder dataFolder oneFileWalk mirroredFS).trace ∧
    (getFolder dataFolder syncFailWalk emptyFS).result
      = .ret (some "sync /backup/a.txt: input/output error") ∧
    Event.openSrc "/data/a.txt" ∈ (getFolder dataFolder syncFailWalk emptyFS).trace ∧
    Event.closeSrc "/data/a.txt" ∉ (getFolder dataFolder syncFailWalk emptyFS).trace ∧
    Event.closeDst "/backup/a.txt" ∈ (getFolder dataFolder syncFailWalk emptyFS).trace := by
  decide

/-! ## Crashes -/

/-- C4: when `os.Stat` of the local counterpart fails with an error other than
not-exist and the remote stat works, `getFolder` does not return that error: it
panics inside `chkLocalFile`. -/
theorem getFolder_panics_on_local_stat_error :
    (getFolder dataFolder blockedWalk blockedFS).result = .panic ∧
    (getFolder dataFolder blockedWalk blockedFS).visited = blockedWalk.steps.take 3 := by
  decide

/-- C3: a panic in the walk of the first folder ends the run: `getFolder` is
never called for the second folder. -/
theorem getFolders_stops_at_panic :
    (getFolders blockedFS [(dataFolder, blockedWalk), (logsFolder, logsWalk)]).walked
      = [dataFolder] ∧
    (getFolders blockedFS [(dataFolder, blockedWalk), (logsFolder, logsWalk)]).crashed
      = true := by
  decide

/-! ## Directory creation -/

/-- C5, counterexample: `os.MkdirAll` of `/backup/sub` fails, yet `getFolder`
returns no error and goes on to visit the remaining entry. -/
theorem getFolder_ignores_mkdir_failure :
    Event.mkdirAll "/backup/sub" false ∈ (getFolder dataFolder mkdirFailWalk readOnlyFS).trace ∧
    (getFolder dataFolder mkdirFailWalk readOnlyFS).result = .ret none ∧
    (getFolder dataFolder mkdirFailWalk readOnlyFS).visited = mkdirFailWalk.steps := by
  decide

/-! ## Idempotence -/

/-- C2, counterexample: two remote roots mirrored to the same local root (the
default `./` of `loadEnvironments`) each hold an `a.txt` of a different size.
The first run completes both walks without error, and the second run, on the
resulting store, copies `/r1/a.txt` again. -/
theorem getFolders_second_run_copies :
    loadEnvironments "/r1,/r2" none = .ret (twoRoots.map Prod.fst) ∧
    (getFolders cwdFS twoRoots).results = [.ret none, .ret none] ∧
    Event.compared "a.txt" true ∈ (getFolders (getFolders cwdFS twoRoots).fs twoRoots).trace ∧
    Event.copied "/r1/a.txt" 10 ∈
      (getFolders (getFolders cwdFS twoRoots).fs twoRoots).trace := by
  decide
/-! ## Basic facts about the walker -/

theorem chkLocalFile_error {st : StatResult} {src : SrcStat} {allow : Bool} {e : Err}
    (h : chkLocalFile st src = .ret (allow, some e)) : src = .failed e := by
  unfold chkLocalFile at h
  cases st <;> cases src <;> simp at h
  · split at h <;> simp at h
  · rw [h.2]
  · rw [h.2]

theorem srcStat_failed {s : WalkStep} {e : Err} (h : s.srcStat = .failed e) :
    s.srcStatErr = some e := by
  unfold WalkStep.srcStat at h
  cases hs : s.srcStatErr with
  | none => simp [hs] at h
  | some e' => simp [hs] at h; rw [h]

theorem visitFile_abort {sfld : syncFolder} {fs : LocalFS} {s : WalkStep} {e : Err}
    (h : (visitFile sfld fs s).flow = .abort e) : s.failsWith e := by
  unfold WalkStep.failsWith
  cases ho : s.openErr with
  | some e' =>
    simp [visitFile, ho] at h
    left; rw [h]
  | none =>
    cases hc : chkLocalFile (osStat fs s.statErr (localPath sfld s)) s.srcStat with
    | panic => simp [visitFile, ho, hc] at h
    | ret p =>
      obtain ⟨allow, oe⟩ := p
      cases oe with
      | some e' =>
        simp [visitFile, ho, hc] at h
        right; left
        rw [← h]
        exact srcStat_failed (chkLocalFile_error hc)
      | none =>
        cases allow with
        | false => simp [visitFile, ho, hc] at h
        | true =>
          cases hcr : s.createErr with
          | some e' =>
            simp [visitFile, ho, hc, hcr] at h
            right; right; left; rw [h]
          | none =>
            cases hcp : s.copyErr with
            | some en =>
              obtain ⟨e', n⟩ := en
              simp [visitFile, ho, hc, hcr, hcp] at h
              right; right; right; left
              exact ⟨n, by rw [h]⟩
            | none =>
              cases hsy : s.syncErr with
              | some e' =>
                simp [visitFile, ho, hc, hcr, hcp, hsy] at h
                right; right; right; right; rw [h]
              | none => simp [visitFile, ho, hc, hcr, hcp, hsy] at h

theorem visitStep_dir_next (sfld : syncFolder) (fs : LocalFS) (s : WalkStep)
    (h : s.isDir = true) : (visitStep sfld fs s).flow = .next := by
  unfold visitStep
  split
  · rfl
  · simp only [h, if_true]
    split <;> rfl

theorem visitStep_abort {sfld : syncFolder} {fs : LocalFS} {s : WalkStep} {e : Err}
    (h : (visitStep sfld fs s).flow = .abort e) :
    s.err = none ∧ s.isDir = false ∧ s.failsWith e := by
  unfold visitStep at h
  split at h
  · simp at h
  · next herr =>
    by_cases hd : s.isDir = true
    · simp only [hd, if_true] at h
      split at h <;> simp at h
    · have hd' : s.isDir = false := by simpa using hd
      simp only [hd', Bool.false_eq_true, if_false] at h
      exact ⟨herr, hd', visitFile_abort h⟩

theorem walkSteps_cons_next {sfld : syncFolder} {fs : LocalFS} {s : WalkStep}
    (rest : List WalkStep) (h : (visitStep sfld fs s).flow = .next) :
    walkSteps sfld fs (s :: rest) =
      ⟨(walkSteps sfld (visitStep sfld fs s).fs rest).result,
        (walkSteps sfld (visitStep sfld fs s).fs rest).fs,
        (visitStep sfld fs s).events ++ (walkSteps sfld (visitStep sfld fs s).fs rest).trace,
        s :: (walkSteps sfld (visitStep sfld fs s).fs rest).visited,
        (visitStep sfld fs s).deferred ++
          (walkSteps sfld (visitStep sfld fs s).fs rest).deferred⟩ := by
  rw [walkSteps]
  simp only [h]

theorem walkSteps_cons_abort {sfld : syncFolder} {fs : LocalFS} {s : WalkStep} {e : Err}
    (rest : List WalkStep) (h : (visitStep sfld fs s).flow = .abort e) :
    walkSteps sfld fs (s :: rest) =
      ⟨.ret (some e), (visitStep sfld fs s).fs, (visitStep sfld fs s).events, [s],
        (visitStep sfld fs s).deferred⟩ := by
  rw [walkSteps]
  simp only [h]

theorem walkSteps_cons_crash {sfld : syncFolder} {fs : LocalFS} {s : WalkStep}
    (rest : List WalkStep) (h : (visitStep sfld fs s).flow = .crash) :
    walkSteps sfld fs (s :: rest) =
      ⟨.panic, (visitStep sfld fs s).fs, (visitStep sfld fs s).events, [s],
        (visitStep sfld fs s).deferred⟩ := by
  rw [walkSteps]
  simp only [h]

theorem walkSteps_error (sfld : syncFolder) :
    ∀ (steps : List WalkStep) (fs : LocalFS) (e : Err),
      (walkSteps sfld fs steps).result = .ret (some e) →
      ∃ s ∈ steps, s.err = none ∧ s.isDir = false ∧ s.failsWith e := by
  intro steps
  induction steps with
  | nil => intro fs e h; simp [walkSteps] at h
  | cons s rest ih =>
    intro fs e h
    unfold walkSteps at h
    cases hf : (visitStep sfld fs s).flow with
    | next =>
      simp only [hf] at h
      obtain ⟨t, ht, hprop⟩ := ih _ _ h
      exact ⟨t, List.mem_cons_of_mem _ ht, hprop⟩
    | abort e' =>
      simp only [hf] at h
      have : e' = e := by simpa using h
      subst this
      exact ⟨s, List.mem_cons_self _ _, visitStep_abort hf⟩
    | crash => simp [hf] at h

/-- C5, amended: a failure of `os.MkdirAll` is dropped by `createIfNotExist`,
which returns nothing.  The loop body of a directory step always lets the walk
go on, `getFolder` returns what the walk of the steps returns whatever happened
to the local root, and an error returned by `getFolder` is always the error of
a call made for a file entry: open, remote stat, create, copy or sync. -/
theorem getFolder_errors_come_from_files (sfld : syncFolder) (w : Walk) (fs : LocalFS) :
    (∀ (fs' : LocalFS) (s : WalkStep), s.isDir = true → (visitStep sfld fs' s).flow = .next) ∧
    (getFolder sfld w fs).result =
      (walkSteps sfld
        (createIfNotExist fs w.rootStatErr w.rootMkdirErr (filepathJoin [sfld.Local])).1
        w.steps).result ∧
    (∀ e, (getFolder sfld w fs).result = .ret (some e) →
      ∃ s ∈ w.steps, s.err = none ∧ s.isDir = false ∧
        (s.openErr = some e ∨ s.srcStatErr = some e ∨ s.createErr = some e ∨
          (∃ n, s.copyErr = some (e, n)) ∨ s.syncErr = some e)) := by
  refine ⟨fun fs' s h => visitStep_dir_next sfld fs' s h, rfl, ?_⟩
  intro e h
  exact walkSteps_error sfld w.steps _ e h
/-! ## Directories precede their contents -/

theorem createsCovered_mono (sfld : syncFolder) :
    ∀ (tr : List Event) (ens ens' : List String), (∀ p ∈ ens, p ∈ ens') →
      createsCovered sfld ens tr = true → createsCovered sfld ens' tr = true := by
  intro tr
  induction tr with
  | nil => intro _ _ _ _; rfl
  | cons ev tr ih =>
    intro ens ens' hsub h
    cases ev with
    | ensureDir p =>
      simp only [createsCovered] at h ⊢
      apply ih (p :: ens) (p :: ens') _ h
      intro q hq
      rcases List.mem_cons.1 hq with rfl | hq
      · exact List.mem_cons_self _ _
      · exact List.mem_cons_of_mem _ (hsub q hq)
    | create rp lp =>
      simp only [createsCovered, Bool.and_eq_true, List.all_eq_true, decide_eq_true_eq] at h ⊢
      exact ⟨fun d hd => hsub _ (h.1 d hd), ih ens ens' hsub h.2⟩
    | mkdirAll _ _ => simp only [createsCovered] at h ⊢; exact ih ens ens' hsub h
    | openSrc _ => simp only [createsCovered] at h ⊢; exact ih ens ens' hsub h
    | compared _ _ => simp only [createsCovered] at h ⊢; exact ih ens ens' hsub h
    | copied _ _ => simp only [createsCovered] at h ⊢; exact ih ens ens' hsub h
    | closeSrc _ => simp only [createsCovered] at h ⊢; exact ih ens ens' hsub h
    | closeDst _ => simp only [createsCovered] at h ⊢; exact ih ens ens' hsub h
    | reported _ => simp only [createsCovered] at h ⊢; exact ih ens ens' hsub h

theorem createsCovered_split (sfld : syncFolder) :
    ∀ (t1 : List Event) (ens : List String) (rp lp : String) (t2 : List Event),
      createsCovered sfld ens (t1 ++ Event.create rp lp :: t2) = true →
      ∀ d ∈ remoteAncestors sfld.Remote rp,
        localDir sfld d ∈ ens ∨ Event.ensureDir (localDir sfld d) ∈ t1 := by
  intro t1
  induction t1 with
  | nil =>
    intro ens rp lp t2 h d hd
    simp only [List.nil_append, createsCovered, Bool.and_eq_true, List.all_eq_true,
      decide_eq_true_eq] at h
    exact Or.inl (h.1 d hd)
  | cons ev t1 ih =>
    intro ens rp lp t2 h d hd
    cases ev with
    | ensureDir p =>
      simp only [List.cons_append, createsCovered] at h
      rcases ih (p :: ens) rp lp t2 h d hd with h1 | h1
      · rcases List.mem_cons.1 h1 with h2 | h2
        · right; rw [h2]; exact List.mem_cons_self _ _
        · left; exact h2
      · right; exact List.mem_cons_of_mem _ h1
    | create rp' lp' =>
      simp only [List.cons_append, createsCovered, Bool.and_eq_true] at h
      rcases ih ens rp lp t2 h.2 d hd with h1 | h1
      · left; exact h1
      · right; exact List.mem_cons_of_mem _ h1
    | mkdirAll _ _ =>
      simp only [List.cons_append, createsCovered] at h
      rcases ih ens rp lp t2 h d hd with h1 | h1
      · left; exact h1
      · right; exact List.mem_cons_of_mem _ h1
    | openSrc _ =>
      simp only [List.cons_append, createsCovered] at h
      rcases ih ens rp lp t2 h d hd with h1 | h1
      · left; exact h1
      · right; exact List.mem_cons_of_mem _ h1
    | compared _ _ =>
      simp only [List.cons_append, createsCovered] at h
      rcases ih ens rp lp t2 h d hd with h1 | h1
      · left; exact h1
      · right; exact List.mem_cons_of_mem _ h1
    | copied _ _ =>
      simp only [List.cons_append, createsCovered] at h
      rcases ih ens rp lp t2 h d hd with h1 | h1
      · left; exact h1
      · right; exact List.mem_cons_of_mem _ h1
    | closeSrc _ =>
      simp only [List.cons_append, createsCovered] at h
      rcases ih ens rp lp t2 h d hd with h1 | h1
      · left; exact h1
      · right; exact List.mem_cons_of_mem _ h1
    | closeDst _ =>
      simp only [List.cons_append, createsCovered] at h
      rcases ih ens rp lp t2 h d hd with h1 | h1
      · left; exact h1
      · right; exact List.mem_cons_of_mem _ h1
    | reported _ =>
      simp only [List.cons_append, createsCovered] at h
      rcases ih ens rp lp t2 h d hd with h1 | h1
      · left; exact h1
      · right; exact List.mem_cons_of_mem _ h1

theorem createIfNotExist_events (fs : LocalFS) (sf : Option Err) (mf : Option (Err × Nat))
    (p : String) :
    (createIfNotExist fs sf mf p).2 = [Event.ensureDir p] ∨
    ∃ ok, (createIfNotExist fs sf mf p).2 = [Event.ensureDir p, Event.mkdirAll p ok] := by
  unfold createIfNotExist
  split
  · right; exact ⟨_, rfl⟩
  · left; rfl

theorem createsCovered_createIfNotExist (sfld : syncFolder) (fs : LocalFS) (sf : Option Err)
    (mf : Option (Err × Nat)) (p : String) (ens : List String) (tr : List Event) :
    createsCovered sfld ens ((createIfNotExist fs sf mf p).2 ++ tr)
      = createsCovered sfld (p :: ens) tr := by
  rcases createIfNotExist_events fs sf mf p with h | ⟨ok, h⟩ <;> rw [h] <;> rfl

theorem createsCovered_visitFile (sfld : syncFolder) (fs : LocalFS) (s : WalkStep)
    (ens : List String) (tr : List Event)
    (h : ∀ d ∈ remoteAncestors sfld.Remote s.path, localDir sfld d ∈ ens) :
    createsCovered sfld ens ((visitFile sfld fs s).events ++ tr) = createsCovered sfld ens tr := by
  have hall : (remoteAncestors sfld.Remote s.path).all
      (fun d => decide (localDir sfld d ∈ ens)) = true := by
    simp only [List.all_eq_true, decide_eq_true_eq]; exact h
  cases ho : s.openErr with
  | some e' => simp [visitFile, ho]
  | none =>
    cases hc : chkLocalFile (osStat fs s.statErr (localPath sfld s)) s.srcStat with
    | panic => simp [visitFile, ho, hc, createsCovered]
    | ret p =>
      obtain ⟨allow, oe⟩ := p
      cases oe with
      | some e' => simp [visitFile, ho, hc, createsCovered]
      | none =>
        cases allow with
        | false => simp [visitFile, ho, hc, createsCovered]
        | true =>
          cases hcr : s.createErr with
          | some e' => simp [visitFile, ho, hc, hcr, createsCovered, hall]
          | none =>
            cases hcp : s.copyErr with
            | some en =>
              obtain ⟨e', n⟩ := en
              simp [visitFile, ho, hc, hcr, hcp, createsCovered, hall]
            | none =>
              cases hsy : s.syncErr with
              | some e' => simp [visitFile, ho, hc, hcr, hcp, hsy, createsCovered, hall]
              | none => simp [visitFile, ho, hc, hcr, hcp, hsy, createsCovered, hall]

theorem remoteAncestors_rel {root path d : String} (h : d ∈ remoteAncestors root path) :
    (trimPrefixStr d root).length > 0 := by
  unfold remoteAncestors at h
  have := (List.mem_filter.1 h).2
  simp only [Bool.and_eq_true, decide_eq_true_eq] at this
  exact this.2

theorem walkSteps_covered (sfld : syncFolder) :
    ∀ (steps : List WalkStep) (fs : LocalFS) (seen ens : List String),
      dirsFirst sfld.Remote seen steps = true →
      (∀ d ∈ seen, (trimPrefixStr d sfld.Remote).length > 0 → localDir sfld d ∈ ens) →
      createsCovered sfld ens (walkSteps sfld fs steps).trace = true := by
  intro steps
  induction steps with
  | nil => intro fs seen ens _ _; rfl
  | cons s rest ih =>
    intro fs seen ens hdf hseen
    cases herr : s.err with
    | some e =>
      simp only [dirsFirst, herr] at hdf
      have hv : visitStep sfld fs s = ⟨.next, fs, [], []⟩ := by simp [visitStep, herr]
      simp only [walkSteps, hv, List.nil_append]
      exact ih fs seen ens hdf hseen
    | none =>
      by_cases hd : s.isDir = true
      · simp only [dirsFirst, herr, hd, if_true] at hdf
        by_cases hrel : (trimPrefixStr s.path sfld.Remote).length > 0
        · have hv : visitStep sfld fs s =
              ⟨.next, (createIfNotExist fs s.statErr s.mkdirErr (localPath sfld s)).1,
                (createIfNotExist fs s.statErr s.mkdirErr (localPath sfld s)).2, []⟩ := by
            simp [visitStep, herr, hd, hrel]
          simp only [walkSteps, hv]
          rw [createsCovered_createIfNotExist]
          apply ih _ (s.path :: seen) _ hdf
          intro d hdm hdrel
          rcases List.mem_cons.1 hdm with rfl | hdm
          · exact List.mem_cons_self _ _
          · exact List.mem_cons_of_mem _ (hseen d hdm hdrel)
        · have hv : visitStep sfld fs s = ⟨.next, fs, [], []⟩ := by
            simp [visitStep, herr, hd, hrel]
          simp only [walkSteps, hv, List.nil_append]
          apply ih _ (s.path :: seen) _ hdf
          intro d hdm hdrel
          rcases List.mem_cons.1 hdm with rfl | hdm
          · exact absurd hdrel hrel
          · exact hseen d hdm hdrel
      · have hd' : s.isDir = false := by simpa using hd
        simp only [dirsFirst, herr, hd', Bool.false_eq_true, if_false, Bool.and_eq_true,
          List.all_eq_true, decide_eq_true_eq] at hdf
        have hanc : ∀ d ∈ remoteAncestors sfld.Remote s.path, localDir sfld d ∈ ens :=
          fun d hdm => hseen d (hdf.1 d hdm) (remoteAncestors_rel hdm)
        have hv : visitStep sfld fs s = visitFile sfld fs s := by
          simp [visitStep, herr, hd']
        have hrest := ih (visitFile sfld fs s).fs seen ens hdf.2 hseen
        have hnil := createsCovered_visitFile sfld fs s ens [] hanc
        simp only [List.append_nil] at hnil
        cases hf : (visitStep sfld fs s).flow with
        | next =>
          rw [walkSteps_cons_next rest hf]
          simp only [hv]
          rw [createsCovered_visitFile sfld fs s ens _ hanc]
          exact hrest
        | abort e =>
          rw [walkSteps_cons_abort rest hf]
          simp only [hv]
          rw [hnil]; rfl
        | crash =>
          rw [walkSteps_cons_crash rest hf]
          simp only [hv]
          rw [hnil]; rfl

theorem createsCovered_closes (sfld : syncFolder) (l : List String) :
    ∀ (tr : List Event) (ens : List String),
      createsCovered sfld ens (tr ++ l.map Event.closeDst) = createsCovered sfld ens tr := by
  intro tr
  induction tr with
  | nil =>
    intro ens
    induction l with
    | nil => rfl
    | cons p l ihl => simpa [createsCovered] using ihl
  | cons ev tr ih =>
    intro ens
    rw [List.cons_append]
    cases ev <;> simp only [createsCovered] <;> rw [ih]

theorem ensuredDirs_append (a b : List Event) :
    ensuredDirs (a ++ b) = ensuredDirs a ++ ensuredDirs b := by
  induction a with
  | nil => rfl
  | cons ev a ih => cases ev <;> simp [ensuredDirs, ih]

theorem ensuredDirs_closes (l : List String) : ensuredDirs (l.map Event.closeDst) = [] := by
  induction l with
  | nil => rfl
  | cons p l ih => simpa [ensuredDirs] using ih

theorem ensuredDirs_createIfNotExist (fs : LocalFS) (sf : Option Err) (mf : Option (Err × Nat))
    (p : String) : ensuredDirs (createIfNotExist fs sf mf p).2 = [p] := by
  rcases createIfNotExist_events fs sf mf p with h | ⟨ok, h⟩ <;> rw [h] <;> rfl

theorem ensuredDirs_visitFile (sfld : syncFolder) (fs : LocalFS) (s : WalkStep) :
    ensuredDirs (visitFile sfld fs s).events = [] := by
  cases ho : s.openErr with
  | some e' => simp [visitFile, ho, ensuredDirs]
  | none =>
    cases hc : chkLocalFile (osStat fs s.statErr (localPath sfld s)) s.srcStat with
    | panic => simp [visitFile, ho, hc, ensuredDirs]
    | ret p =>
      obtain ⟨allow, oe⟩ := p
      cases oe with
      | some e' => simp [visitFile, ho, hc, ensuredDirs]
      | none =>
        cases allow with
        | false => simp [visitFile, ho, hc, ensuredDirs]
        | true =>
          cases hcr : s.createErr with
          | some e' => simp [visitFile, ho, hc, hcr, ensuredDirs]
          | none =>
            cases hcp : s.copyErr with
            | some en =>
              obtain ⟨e', n⟩ := en
              simp [visitFile, ho, hc, hcr, hcp, ensuredDirs]
            | none =>
              cases hsy : s.syncErr with
              | some e' => simp [visitFile, ho, hc, hcr, hcp, hsy, ensuredDirs]
              | none => simp [visitFile, ho, hc, hcr, hcp, hsy, ensuredDirs]

theorem ensuredDirs_visitStep (sfld : syncFolder) (fs : LocalFS) (s : WalkStep) :
    ensuredDirs (visitStep sfld fs s).events =
      if s.makesDir sfld = true then [localPath sfld s] else [] := by
  cases herr : s.err with
  | some e => simp [visitStep, herr, WalkStep.makesDir, ensuredDirs]
  | none =>
    by_cases hd : s.isDir = true
    · by_cases hrel : (trimPrefixStr s.path sfld.Remote).length > 0
      · simp [visitStep, herr, hd, hrel, WalkStep.makesDir, ensuredDirs_createIfNotExist]
      · simp [visitStep, herr, hd, hrel, WalkStep.makesDir, ensuredDirs]
    · have hd' : s.isDir = false := by simpa using hd
      simp [visitStep, herr, hd', WalkStep.makesDir, ensuredDirs_visitFile]

theorem walkSteps_ensuredDirs (sfld : syncFolder) :
    ∀ (steps : List WalkStep) (fs : LocalFS),
      ensuredDirs (walkSteps sfld fs steps).trace =
        ((walkSteps sfld fs steps).visited.filter (WalkStep.makesDir sfld)).map
          (localPath sfld) := by
  intro steps
  induction steps with
  | nil => intro fs; rfl
  | cons s rest ih =>
    intro fs
    cases hf : (visitStep sfld fs s).flow with
    | next =>
      rw [walkSteps_cons_next rest hf]
      simp only [ensuredDirs_append, ih, ensuredDirs_visitStep, List.filter_cons]
      by_cases hm : s.makesDir sfld = true <;> simp [hm]
    | abort e =>
      rw [walkSteps_cons_abort rest hf]
      simp only [ensuredDirs_visitStep, List.filter_cons]
      by_cases hm : s.makesDir sfld = true <;> simp [hm]
    | crash =>
      rw [walkSteps_cons_crash rest hf]
      simp only [ensuredDirs_visitStep, List.filter_cons]
      by_cases hm : s.makesDir sfld = true <;> simp [hm]

theorem getFolder_trace_head (sfld : syncFolder) (w : Walk) (fs : LocalFS) :
    ∃ tl, (getFolder sfld w fs).trace = Event.ensureDir (filepathJoin [sfld.Local]) :: tl := by
  unfold getFolder
  rcases createIfNotExist_events fs w.rootStatErr w.rootMkdirErr (filepathJoin [sfld.Local])
    with h | ⟨ok, h⟩
  · exact ⟨_, by simp only [h]; rfl⟩
  · exact ⟨_, by simp only [h]; rfl⟩

theorem lookupNode_addDir {fs : LocalFS} {q : String} {nd : Node} (p : String)
    (h : lookupNode fs.nodes q = some nd) : lookupNode (addDir fs p).nodes q = some nd := by
  unfold addDir
  cases hp : lookupNode fs.nodes p with
  | some _ => simpa using h
  | none =>
    simp only [lookupNode]
    by_cases hq : q = p
    · subst hq; rw [hp] at h; simp at h
    · simp [hq, h]

theorem lookupNode_foldl_addDir {q : String} {nd : Node} :
    ∀ (dirs : List String) (fs : LocalFS), lookupNode fs.nodes q = some nd →
      lookupNode (dirs.foldl addDir fs).nodes q = some nd := by
  intro dirs
  induction dirs with
  | nil => intro fs h; exact h
  | cons d dirs ih => intro fs h; exact ih _ (lookupNode_addDir d h)

theorem Holds_osMkdirAll {fs : LocalFS} {t : String × Nat} (mf : Option (Err × Nat))
    (p : String) (h : Holds fs t) : Holds (osMkdirAll fs mf p) t := by
  obtain ⟨nd, h1, h2⟩ := h
  refine ⟨nd, ?_, h2⟩
  unfold osMkdirAll
  cases mf with
  | none => exact lookupNode_foldl_addDir _ _ h1
  | some ek => exact lookupNode_foldl_addDir _ _ h1

theorem Holds_createIfNotExist {fs : LocalFS} {t : String × Nat} (sf : Option Err)
    (mf : Option (Err × Nat)) (p : String) (h : Holds fs t) :
    Holds (createIfNotExist fs sf mf p).1 t := by
  unfold createIfNotExist
  split
  · exact Holds_osMkdirAll mf p h
  · exact h

theorem Holds_writeFile_self (fs : LocalFS) (lp : String) (n : Nat) :
    Holds (writeFile fs lp n) (lp, n) :=
  ⟨.file n, by simp [writeFile, lookupNode], rfl⟩

theorem Holds_writeFile_other {fs : LocalFS} {t : String × Nat} (lp : String) (n : Nat)
    (h : Holds fs t) (hne : t.1 ≠ lp) : Holds (writeFile fs lp n) t := by
  obtain ⟨nd, h1, h2⟩ := h
  exact ⟨nd, by simp [writeFile, lookupNode, hne, h1], h2⟩

theorem osStat_info {fs : LocalFS} {f : Option Err} {p : String} {n : Nat}
    (h : osStat fs f p = .info n) : f = none ∧ Holds fs (p, n) := by
  unfold osStat at h
  cases f with
  | some e => simp at h
  | none =>
    cases hl : lookupNode fs.nodes p with
    | none => simp [hl] at h
    | some nd =>
      simp [hl] at h
      exact ⟨rfl, nd, hl, h⟩

theorem osStat_of_Holds {fs : LocalFS} {p : String} {n : Nat} (h : Holds fs (p, n)) :
    osStat fs none p = .info n := by
  obtain ⟨nd, h1, h2⟩ := h
  have h1' : lookupNode fs.nodes p = some nd := h1
  have h2' : nd.size = n := h2
  simp [osStat, h1', h2']

theorem osStat_not_failed {fs : LocalFS} {f : Option Err} {p : String}
    (h : ∀ e, osStat fs f p ≠ .failed e) : f = none := by
  cases f with
  | none => rfl
  | some e => exact absurd rfl (h e)

theorem chkLocalFile_false {st : StatResult} {src : SrcStat}
    (h : chkLocalFile st src = .ret (false, none)) : ∃ n, st = .info n ∧ src = .info n := by
  unfold chkLocalFile at h
  cases st <;> cases src <;> simp at h
  next l r =>
    by_cases hlr : l = r
    · exact ⟨l, rfl, by rw [hlr]⟩
    · exact absurd h hlr

theorem chkLocalFile_true {st : StatResult} {src : SrcStat}
    (h : chkLocalFile st src = .ret (true, none)) : ∀ e, st ≠ .failed e := by
  intro e he
  subst he
  unfold chkLocalFile at h
  cases src <;> simp at h

theorem srcStat_info {s : WalkStep} {n : Nat} (h : s.srcStat = .info n) : n = s.size := by
  unfold WalkStep.srcStat at h
  cases hs : s.srcStatErr with
  | none => simp [hs] at h; exact h.symm
  | some e' => simp [hs] at h

/-- A file entry whose loop body lets the walk go on: neither `os.Stat` nor
`client.Open` failed, the store afterwards holds the entry, and the store is
either unchanged or got the copy. -/
theorem visitFile_next {sfld : syncFolder} {fs : LocalFS} {s : WalkStep}
    (h : (visitFile sfld fs s).flow = .next) :
    s.statErr = none ∧ s.openErr = none ∧
    Holds (visitFile sfld fs s).fs (localPath sfld s, s.size) ∧
    ((visitFile sfld fs s).fs = fs ∨
      (visitFile sfld fs s).fs = writeFile fs (localPath sfld s) s.size) := by
  cases ho : s.openErr with
  | some e' => simp [visitFile, ho] at h
  | none =>
    cases hc : chkLocalFile (osStat fs s.statErr (localPath sfld s)) s.srcStat with
    | panic => simp [visitFile, ho, hc] at h
    | ret p =>
      obtain ⟨allow, oe⟩ := p
      cases oe with
      | some e' => simp [visitFile, ho, hc] at h
      | none =>
        cases allow with
        | false =>
          obtain ⟨n, hst, hsrc⟩ := chkLocalFile_false hc
          have hn := srcStat_info hsrc
          obtain ⟨hf, hh⟩ := osStat_info hst
          have hfs : (visitFile sfld fs s).fs = fs := by simp [visitFile, ho, hc]
          rw [hfs]
          exact ⟨hf, rfl, by rw [← hn]; exact hh, Or.inl rfl⟩
        | true =>
          have hf := osStat_not_failed (chkLocalFile_true hc)
          cases hcr : s.createErr with
          | some e' => simp [visitFile, ho, hc, hcr] at h
          | none =>
            cases hcp : s.copyErr with
            | some en =>
              obtain ⟨e', n⟩ := en
              simp [visitFile, ho, hc, hcr, hcp] at h
            | none =>
              cases hsy : s.syncErr with
              | some e' => simp [visitFile, ho, hc, hcr, hcp, hsy] at h
              | none =>
                have hfs : (visitFile sfld fs s).fs = writeFile fs (localPath sfld s) s.size := by
                  simp [visitFile, ho, hc, hcr, hcp, hsy]
                rw [hfs]
                exact ⟨hf, rfl, Holds_writeFile_self _ _ _, Or.inr rfl⟩

/-- A file entry that the store already holds, with working `os.Stat` and
`client.Open`: nothing is copied, the store is untouched and nothing panics. -/
theorem visitFile_synced {sfld : syncFolder} {fs : LocalFS} {s : WalkStep}
    (hst : s.statErr = none) (ho : s.openErr = none)
    (hh : Holds fs (localPath sfld s, s.size)) :
    (visitFile sfld fs s).fs = fs ∧ (visitFile sfld fs s).flow ≠ .crash ∧
    (visitFile sfld fs s).deferred = [] ∧
    ∀ ev ∈ (visitFile sfld fs s).events, ev.copies = false := by
  have hstat : osStat fs s.statErr (localPath sfld s) = .info s.size := by
    rw [hst]; exact osStat_of_Holds hh
  cases hs : s.srcStatErr with
  | some e =>
    have hc : chkLocalFile (osStat fs s.statErr (localPath sfld s)) s.srcStat
        = .ret (false, some e) := by
      rw [hstat]; simp [chkLocalFile, WalkStep.srcStat, hs]
    simp [visitFile, ho, hc, Event.copies]
  | none =>
    have hc : chkLocalFile (osStat fs s.statErr (localPath sfld s)) s.srcStat
        = .ret (false, none) := by
      rw [hstat]; simp [chkLocalFile, WalkStep.srcStat, hs]
    simp [visitFile, ho, hc, Event.copies]

theorem mem_fileTargets_cons {sfld : syncFolder} {s : WalkStep} {rest : List WalkStep}
    {t : String × Nat} :
    t ∈ fileTargets sfld (s :: rest) ↔
      (s.err = none ∧ s.isDir = false ∧ t = (localPath sfld s, s.size)) ∨
        t ∈ fileTargets sfld rest := by
  unfold fileTargets
  by_cases hc : (s.err.isNone && !s.isDir) = true
  · simp only [List.filter_cons, hc, if_true, List.map_cons, List.mem_cons]
    simp only [Bool.and_eq_true, Option.isNone_iff_eq_none, Bool.not_eq_true'] at hc
    constructor
    · rintro (h | h)
      · exact Or.inl ⟨hc.1, hc.2, h⟩
      · exact Or.inr h
    · rintro (h | h)
      · exact Or.inl h.2.2
      · exact Or.inr h
  · simp only [List.filter_cons, hc, if_false]
    simp only [Bool.and_eq_true, Option.isNone_iff_eq_none, Bool.not_eq_true'] at hc
    constructor
    · intro h; exact Or.inr h
    · rintro (h | h)
      · exact absurd ⟨h.1, h.2.1⟩ hc
      · exact h

theorem visitStep_file {sfld : syncFolder} {fs : LocalFS} {s : WalkStep}
    (herr : s.err = none) (hd : s.isDir = false) :
    visitStep sfld fs s = visitFile sfld fs s := by
  simp [visitStep, herr, hd]

theorem visitStep_not_file_holds {sfld : syncFolder} {fs : LocalFS} {s : WalkStep}
    (h : ¬ (s.err = none ∧ s.isDir = false)) {t : String × Nat} (ht : Holds fs t) :
    Holds (visitStep sfld fs s).fs t := by
  cases herr : s.err with
  | some e => simpa [visitStep, herr] using ht
  | none =>
    have hd : s.isDir = true := by
      by_contra hc
      exact h ⟨herr, by simpa using hc⟩
    by_cases hrel : (trimPrefixStr s.path sfld.Remote).length > 0
    · have hv : (visitStep sfld fs s).fs =
          (createIfNotExist fs s.statErr s.mkdirErr (localPath sfld s)).1 := by
        simp [visitStep, herr, hd, hrel]
      rw [hv]
      exact Holds_createIfNotExist _ _ _ ht
    · have hv : (visitStep sfld fs s).fs = fs := by simp [visitStep, herr, hd, hrel]
      rw [hv]; exact ht

theorem visitStep_not_file_events {sfld : syncFolder} {fs : LocalFS} {s : WalkStep}
    (h : ¬ (s.err = none ∧ s.isDir = false)) :
    (visitStep sfld fs s).flow = .next ∧ (visitStep sfld fs s).deferred = [] ∧
    ∀ ev ∈ (visitStep sfld fs s).events, ev.copies = false := by
  cases herr : s.err with
  | some e => simp [visitStep, herr]
  | none =>
    have hd : s.isDir = true := by
      by_contra hc
      exact h ⟨herr, by simpa using hc⟩
    by_cases hrel : (trimPrefixStr s.path sfld.Remote).length > 0
    · have hv : visitStep sfld fs s =
          ⟨.next, (createIfNotExist fs s.statErr s.mkdirErr (localPath sfld s)).1,
            (createIfNotExist fs s.statErr s.mkdirErr (localPath sfld s)).2, []⟩ := by
        simp [visitStep, herr, hd, hrel]
      rw [hv]
      refine ⟨rfl, rfl, ?_⟩
      rcases createIfNotExist_events fs s.statErr s.mkdirErr (localPath sfld s)
        with h1 | ⟨ok, h1⟩ <;> simp [h1, Event.copies]
    · have hv : visitStep sfld fs s = ⟨.next, fs, [], []⟩ := by
        simp [visitStep, herr, hd, hrel]
      rw [hv]
      simp

/-- First run, one folder: when the walk of the steps returns no error, the
store afterwards holds every target it held before and every file entry of the
walk, and no file entry has a failing `os.Stat` or `client.Open`. -/
theorem walkSteps_first_run (sfld : syncFolder) (T : List (String × Nat))
    (hT : ConsistentTargets T) :
    ∀ (steps : List WalkStep) (fs : LocalFS) (P : String × Nat → Prop),
      (∀ t ∈ fileTargets sfld steps, t ∈ T) → (∀ t, P t → t ∈ T) →
      (∀ t, P t → Holds fs t) → (walkSteps sfld fs steps).result = .ret none →
      (∀ t, P t ∨ t ∈ fileTargets sfld steps → Holds (walkSteps sfld fs steps).fs t) ∧
        CleanSteps steps := by
  intro steps
  induction steps with
  | nil =>
    intro fs P _ _ hP _
    refine ⟨?_, ?_⟩
    · intro t ht
      rcases ht with ht | ht
      · exact hP t ht
      · simp [fileTargets] at ht
    · intro s hs; simp at hs
  | cons s rest ih =>
    intro fs P hsub hPT hP hres
    have hsub' : ∀ t ∈ fileTargets sfld rest, t ∈ T :=
      fun t ht => hsub t (mem_fileTargets_cons.2 (Or.inr ht))
    cases hf : (visitStep sfld fs s).flow with
    | abort e => rw [walkSteps_cons_abort rest hf] at hres; simp at hres
    | crash => rw [walkSteps_cons_crash rest hf] at hres; simp at hres
    | next =>
      rw [walkSteps_cons_next rest hf] at hres ⊢
      simp only at hres ⊢
      by_cases hfile : s.err = none ∧ s.isDir = false
      · have hv : visitStep sfld fs s = visitFile sfld fs s := visitStep_file hfile.1 hfile.2
        rw [hv] at hf
        obtain ⟨hst, hop, hself, hfs⟩ := visitFile_next hf
        have hmem : (localPath sfld s, s.size) ∈ T :=
          hsub _ (mem_fileTargets_cons.2 (Or.inl ⟨hfile.1, hfile.2, rfl⟩))
        have hkeep : ∀ t, t ∈ T → Holds fs t → Holds (visitStep sfld fs s).fs t := by
          intro t htT ht
          rw [hv]
          rcases hfs with h1 | h1
          · rw [h1]; exact ht
          · rw [h1]
            by_cases hp : t.1 = localPath sfld s
            · have h2 : t.2 = s.size := hT t htT _ hmem hp
              have : t = (localPath sfld s, s.size) := Prod.ext hp h2
              rw [this]; exact Holds_writeFile_self _ _ _
            · exact Holds_writeFile_other _ _ ht hp
        obtain ⟨ih1, ih2⟩ := ih (visitStep sfld fs s).fs
          (fun t => P t ∨ t = (localPath sfld s, s.size)) hsub'
          (by
            intro t ht
            rcases ht with ht | ht
            · exact hPT t ht
            · rw [ht]; exact hmem)
          (by
            intro t ht
            rcases ht with ht | ht
            · exact hkeep t (hPT t ht) (hP t ht)
            · rw [ht, hv]; exact hself)
          hres
        refine ⟨?_, ?_⟩
        · intro t ht
          rcases ht with ht | ht
          · exact ih1 t (Or.inl (Or.inl ht))
          · rcases mem_fileTargets_cons.1 ht with h1 | h1
            · exact ih1 t (Or.inl (Or.inr h1.2.2))
            · exact ih1 t (Or.inr h1)
        · intro s' hs' herr' hd'
          rcases List.mem_cons.1 hs' with rfl | hs'
          · exact ⟨hst, hop⟩
          · exact ih2 s' hs' herr' hd'
      · obtain ⟨ih1, ih2⟩ := ih (visitStep sfld fs s).fs P hsub' hPT
          (fun t ht => visitStep_not_file_holds hfile (hP t ht)) hres
        refine ⟨?_, ?_⟩
        · intro t ht
          rcases ht with ht | ht
          · exact ih1 t (Or.inl ht)
          · rcases mem_fileTargets_cons.1 ht with h1 | h1
            · exact absurd ⟨h1.1, h1.2.1⟩ hfile
            · exact ih1 t (Or.inr h1)
        · intro s' hs' herr' hd'
          rcases List.mem_cons.1 hs' with rfl | hs'
          · exact absurd ⟨herr', hd'⟩ hfile
          · exact ih2 s' hs' herr' hd'

/-- Second run, one folder: on a store that holds every file entry of the walk,
with working `os.Stat` and `client.Open`, the walk does not panic, causes no
copy event, and keeps every target the store holds. -/
theorem walkSteps_second_run (sfld : syncFolder) :
    ∀ (steps : List WalkStep) (fs : LocalFS),
      (∀ t ∈ fileTargets sfld steps, Holds fs t) → CleanSteps steps →
      (walkSteps sfld fs steps).result ≠ .panic ∧
      (walkSteps sfld fs steps).deferred = [] ∧
      (∀ ev ∈ (walkSteps sfld fs steps).trace, ev.copies = false) ∧
      (∀ t, Holds fs t → Holds (walkSteps sfld fs steps).fs t) := by
  intro steps
  induction steps with
  | nil =>
    intro fs _ _
    simp [walkSteps]
  | cons s rest ih =>
    intro fs hh hclean
    have hclean' : CleanSteps rest :=
      fun s' hs' => hclean s' (List.mem_cons_of_mem _ hs')
    by_cases hfile : s.err = none ∧ s.isDir = false
    · have hv : visitStep sfld fs s = visitFile sfld fs s := visitStep_file hfile.1 hfile.2
      obtain ⟨hst, hop⟩ := hclean s (List.mem_cons_self _ _) hfile.1 hfile.2
      have hself : Holds fs (localPath sfld s, s.size) :=
        hh _ (mem_fileTargets_cons.2 (Or.inl ⟨hfile.1, hfile.2, rfl⟩))
      obtain ⟨hfs, hnc, hdef, hev⟩ := visitFile_synced hst hop hself
      rw [← hv] at hfs hnc hdef hev
      have hrest := ih fs (fun t ht => hh t (mem_fileTargets_cons.2 (Or.inr ht))) hclean'
      cases hf : (visitStep sfld fs s).flow with
      | crash => exact absurd hf hnc
      | abort e =>
        rw [walkSteps_cons_abort rest hf]
        refine ⟨by simp, hdef, hev, ?_⟩
        intro t ht
        simp only [hfs]; exact ht
      | next =>
        rw [walkSteps_cons_next rest hf]
        simp only [hfs, hdef, List.nil_append]
        refine ⟨hrest.1, hrest.2.1, ?_, hrest.2.2.2⟩
        intro ev hev'
        rcases List.mem_append.1 hev' with h1 | h1
        · exact hev ev h1
        · exact hrest.2.2.1 ev h1
    · obtain ⟨hf, hdef, hev⟩ := @visitStep_not_file_events sfld fs s hfile
      have hrest := ih (visitStep sfld fs s).fs
        (fun t ht => visitStep_not_file_holds hfile
          (hh t (mem_fileTargets_cons.2 (Or.inr ht)))) hclean'
      rw [walkSteps_cons_next rest hf]
      simp only [hdef, List.nil_append]
      refine ⟨hrest.1, hrest.2.1, ?_, ?_⟩
      · intro ev hev'
        rcases List.mem_append.1 hev' with h1 | h1
        · exact hev ev h1
        · exact hrest.2.2.1 ev h1
      · intro t ht
        exact hrest.2.2.2 t (visitStep_not_file_holds hfile ht)

theorem getFolders_cons_ok {fs : LocalFS} {sfld : syncFolder} {w : Walk}
    (rest : List (syncFolder × Walk)) (h : (getFolder sfld w fs).result = .ret none) :
    getFolders fs ((sfld, w) :: rest) =
      ⟨(getFolders (getFolder sfld w fs).fs rest).fs,
        sfld :: (getFolders (getFolder sfld w fs).fs rest).walked,
        .ret none :: (getFolders (getFolder sfld w fs).fs rest).results,
        (getFolder sfld w fs).trace ++ (getFolders (getFolder sfld w fs).fs rest).trace,
        (getFolders (getFolder sfld w fs).fs rest).crashed⟩ := by
  rw [getFolders]
  simp only [h]

theorem getFolders_cons_err {fs : LocalFS} {sfld : syncFolder} {w : Walk} {e : Err}
    (rest : List (syncFolder × Walk)) (h : (getFolder sfld w fs).result = .ret (some e)) :
    getFolders fs ((sfld, w) :: rest) =
      ⟨(getFolders (getFolder sfld w fs).fs rest).fs,
        sfld :: (getFolders (getFolder sfld w fs).fs rest).walked,
        .ret (some e) :: (getFolders (getFolder sfld w fs).fs rest).results,
        (getFolder sfld w fs).trace ++
          Event.reported e :: (getFolders (getFolder sfld w fs).fs rest).trace,
        (getFolders (getFolder sfld w fs).fs rest).crashed⟩ := by
  rw [getFolders]
  simp only [h]

theorem getFolders_cons_panic {fs : LocalFS} {sfld : syncFolder} {w : Walk}
    (rest : List (syncFolder × Walk)) (h : (getFolder sfld w fs).result = .panic) :
    getFolders fs ((sfld, w) :: rest) =
      ⟨(getFolder sfld w fs).fs, [sfld], [.panic], (getFolder sfld w fs).trace, true⟩ := by
  rw [getFolders]
  simp only [h]

/-- First run, all folders: when every walk returns no error, the final store
holds every file entry of every folder, and no file entry has a failing
`os.Stat` or `client.Open`. -/
theorem getFolders_first_run (T : List (String × Nat)) (hT : ConsistentTargets T) :
    ∀ (folders : List (syncFolder × Walk)) (fs : LocalFS) (P : String × Nat → Prop),
      (∀ t ∈ allTargets folders, t ∈ T) → (∀ t, P t → t ∈ T) →
      (∀ t, P t → Holds fs t) →
      (∀ r ∈ (getFolders fs folders).results, r = .ret none) →
      (∀ t, P t ∨ t ∈ allTargets folders → Holds (getFolders fs folders).fs t) ∧
        ∀ fw ∈ folders, CleanSteps fw.2.steps := by
  intro folders
  induction folders with
  | nil =>
    intro fs P _ _ hP _
    refine ⟨?_, ?_⟩
    · intro t ht
      rcases ht with ht | ht
      · exact hP t ht
      · simp [allTargets] at ht
    · intro fw hfw; simp at hfw
  | cons fw rest ih =>
    obtain ⟨sfld, w⟩ := fw
    intro fs P hsub hPT hP hok
    have hsub1 : ∀ t ∈ fileTargets sfld w.steps, t ∈ T :=
      fun t ht => hsub t (by simp only [allTargets]; exact List.mem_append_left _ ht)
    have hsub2 : ∀ t ∈ allTargets rest, t ∈ T :=
      fun t ht => hsub t (by simp only [allTargets]; exact List.mem_append_right _ ht)
    cases hres : (getFolder sfld w fs).result with
    | panic =>
      rw [getFolders_cons_panic rest hres] at hok
      have := hok .panic (by simp)
      simp at this
    | ret oe =>
      cases oe with
      | some e =>
        rw [getFolders_cons_err rest hres] at hok
        have := hok (.ret (some e)) (by simp)
        simp at this
      | none =>
        rw [getFolders_cons_ok rest hres] at hok ⊢
        simp only at hok ⊢
        have hres' : (walkSteps sfld
            (createIfNotExist fs w.rootStatErr w.rootMkdirErr (filepathJoin [sfld.Local])).1
            w.steps).result = .ret none := hres
        obtain ⟨w1, w2⟩ := walkSteps_first_run sfld T hT w.steps _ P hsub1 hPT
          (fun t ht => Holds_createIfNotExist _ _ _ (hP t ht)) hres'
        have w1' : ∀ t, P t ∨ t ∈ fileTargets sfld w.steps →
            Holds (getFolder sfld w fs).fs t := w1
        obtain ⟨ih1, ih2⟩ := ih (getFolder sfld w fs).fs
          (fun t => P t ∨ t ∈ fileTargets sfld w.steps) hsub2
          (by
            intro t ht
            rcases ht with ht | ht
            · exact hPT t ht
            · exact hsub1 t ht)
          w1'
          (fun r hr => hok r (List.mem_cons_of_mem _ hr))
        refine ⟨?_, ?_⟩
        · intro t ht
          rcases ht with ht | ht
          · exact ih1 t (Or.inl (Or.inl ht))
          · simp only [allTargets] at ht
            rcases List.mem_append.1 ht with h1 | h1
            · exact ih1 t (Or.inl (Or.inr h1))
            · exact ih1 t (Or.inr h1)
        · intro fw hfw
          rcases List.mem_cons.1 hfw with rfl | hfw
          · exact w2
          · exact ih2 fw hfw

theorem getFolder_second_run (sfld : syncFolder) (w : Walk) (fs : LocalFS)
    (hh : ∀ t ∈ fileTargets sfld w.steps, Holds fs t) (hclean : CleanSteps w.steps) :
    (getFolder sfld w fs).result ≠ .panic ∧
    (∀ ev ∈ (getFolder sfld w fs).trace, ev.copies = false) ∧
    (∀ t, Holds fs t → Holds (getFolder sfld w fs).fs t) := by
  obtain ⟨h1, h2, h3, h4⟩ := walkSteps_second_run sfld w.steps
    (createIfNotExist fs w.rootStatErr w.rootMkdirErr (filepathJoin [sfld.Local])).1
    (fun t ht => Holds_createIfNotExist _ _ _ (hh t ht)) hclean
  refine ⟨h1, ?_, fun t ht => h4 t (Holds_createIfNotExist _ _ _ ht)⟩
  intro ev hev
  unfold getFolder at hev
  simp only [h2, List.reverse_nil, List.map_nil, List.append_nil] at hev
  rcases List.mem_append.1 hev with h5 | h5
  · rcases createIfNotExist_events fs w.rootStatErr w.rootMkdirErr (filepathJoin [sfld.Local])
      with h6 | ⟨ok, h6⟩
    · rw [h6] at h5
      simp at h5
      rw [h5]; rfl
    · rw [h6] at h5
      simp at h5
      rcases h5 with h5 | h5 <;> rw [h5] <;> rfl
  · exact h3 ev h5

/-- Second run, all folders: on a store that holds every file entry, with
working `os.Stat` and `client.Open`, nothing panics and no copy event
happens. -/
theorem getFolders_second_run :
    ∀ (folders : List (syncFolder × Walk)) (fs : LocalFS),
      (∀ t ∈ allTargets folders, Holds fs t) → (∀ fw ∈ folders, CleanSteps fw.2.steps) →
      (getFolders fs folders).crashed = false ∧
      (getFolders fs folders).walked = folders.map Prod.fst ∧
      ∀ ev ∈ (getFolders fs folders).trace, ev.copies = false := by
  intro folders
  induction folders with
  | nil => intro fs _ _; simp [getFolders]
  | cons fw rest ih =>
    obtain ⟨sfld, w⟩ := fw
    intro fs hh hclean
    have hh1 : ∀ t ∈ fileTargets sfld w.steps, Holds fs t :=
      fun t ht => hh t (by simp only [allTargets]; exact List.mem_append_left _ ht)
    obtain ⟨g1, g2, g3⟩ := getFolder_second_run sfld w fs hh1
      (hclean (sfld, w) (List.mem_cons_self _ _))
    obtain ⟨i1, i2, i3⟩ := ih (getFolder sfld w fs).fs
      (fun t ht => g3 t (hh t (by simp only [allTargets]; exact List.mem_append_right _ ht)))
      (fun fw hfw => hclean fw (List.mem_cons_of_mem _ hfw))
    cases hres : (getFolder sfld w fs).result with
    | panic => exact absurd hres g1
    | ret oe =>
      cases oe with
      | none =>
        rw [getFolders_cons_ok rest hres]
        refine ⟨i1, by simp [i2], ?_⟩
        intro ev hev
        rcases List.mem_append.1 hev with h | h
        · exact g2 ev h
        · exact i3 ev h
      | some e =>
        rw [getFolders_cons_err rest hres]
        refine ⟨i1, by simp [i2], ?_⟩
        intro ev hev
        rcases List.mem_append.1 hev with h | h
        · exact g2 ev h
        · rcases List.mem_cons.1 h with h | h
          · rw [h]; rfl
          · exact i3 ev h

/-- C2, amended: if the first run of `getFolders` completes every folder's walk
without error, and no two file entries that are mirrored to the same local
path differ in size, then a second run on the resulting local store with the
same remote trees does not panic, walks every folder, and copies nothing:
`chkLocalFile` never returns true, `os.Create` is never called and no copy is
reported. -/
theorem getFolders_idempotent (fs : LocalFS) (folders : List (syncFolder × Walk))
    (hok : ∀ r ∈ (getFolders fs folders).results, r = .ret none)
    (hcons : ConsistentTargets (allTargets folders)) :
    (getFolders (getFolders fs folders).fs folders).crashed = false ∧
    (getFolders (getFolders fs folders).fs folders).walked = folders.map Prod.fst ∧
    ∀ ev ∈ (getFolders (getFolders fs folders).fs folders).trace, ev.copies = false := by
  obtain ⟨h1, h2⟩ := getFolders_first_run (allTargets folders) hcons folders fs
    (fun _ => False) (fun t ht => ht) (fun t ht => ht.elim) (fun t ht => ht.elim) hok
  exact getFolders_second_run folders _ (fun t ht => h1 t (Or.inr ht)) h2

/-- C2, witness: the end-to-end scenario, `/data` with `a.txt` and `sub/b.txt`
mirrored to an empty local store. -/
theorem getFolders_idempotent_witness :
    (∀ r ∈ (getFolders emptyFS [(dataFolder, dataWalk)]).results, r = .ret none) ∧
    ConsistentTargets (allTargets [(dataFolder, dataWalk)]) ∧
    (getFolders (getFolders emptyFS [(dataFolder, dataWalk)]).fs
      [(dataFolder, dataWalk)]).crashed = false ∧
    (getFolders (getFolders emptyFS [(dataFolder, dataWalk)]).fs
      [(dataFolder, dataWalk)]).walked = [(dataFolder, dataWalk)].map Prod.fst ∧
    ∀ ev ∈ (getFolders (getFolders emptyFS [(dataFolder, dataWalk)]).fs
      [(dataFolder, dataWalk)]).trace, ev.copies = false :=
  ⟨by decide, by decide,
    getFolders_idempotent emptyFS [(dataFolder, dataWalk)] (by decide) (by decide)⟩

/-! ## Directories exist when their files are reached -/

theorem PathExists_addDir {fs : LocalFS} {q : String} (p : String) (h : PathExists fs q) :
    PathExists (addDir fs p) q := by
  unfold PathExists at h ⊢
  cases hq : lookupNode fs.nodes q with
  | none => exact absurd hq h
  | some nd => rw [lookupNode_addDir p hq]; simp

theorem PathExists_addDir_self (fs : LocalFS) (p : String) : PathExists (addDir fs p) p := by
  unfold PathExists addDir
  cases hp : lookupNode fs.nodes p with
  | none => simp [lookupNode]
  | some nd => simp [hp]

theorem PathExists_foldl_addDir {q : String} :
    ∀ (dirs : List String) (fs : LocalFS), PathExists fs q →
      PathExists (dirs.foldl addDir fs) q := by
  intro dirs
  induction dirs with
  | nil => intro fs h; exact h
  | cons d dirs ih => intro fs h; exact ih _ (PathExists_addDir d h)

theorem PathExists_osMkdirAll {fs : LocalFS} {q : String} (mf : Option (Err × Nat))
    (p : String) (h : PathExists fs q) : PathExists (osMkdirAll fs mf p) q := by
  unfold osMkdirAll
  cases mf with
  | none => exact PathExists_foldl_addDir _ _ h
  | some ek => exact PathExists_foldl_addDir _ _ h

theorem PathExists_osMkdirAll_self (fs : LocalFS) (p : String) :
    PathExists (osMkdirAll fs none p) p := by
  unfold osMkdirAll
  simp only [List.foldl_append, List.foldl_cons, List.foldl_nil]
  exact PathExists_addDir_self _ p

theorem PathExists_createIfNotExist {fs : LocalFS} {q : String} (sf : Option Err)
    (mf : Option (Err × Nat)) (p : String) (h : PathExists fs q) :
    PathExists (createIfNotExist fs sf mf p).1 q := by
  unfold createIfNotExist
  split
  · exact PathExists_osMkdirAll mf p h
  · exact h

theorem PathExists_createIfNotExist_self (fs : LocalFS) (p : String) :
    PathExists (createIfNotExist fs none none p).1 p := by
  unfold createIfNotExist
  cases hs : osStat fs none p with
  | notExist => exact PathExists_osMkdirAll_self fs p
  | info n =>
    obtain ⟨_, nd, hnd, _⟩ := osStat_info hs
    have hnd' : lookupNode fs.nodes p = some nd := hnd
    simp [PathExists, hnd']
  | failed e => simp [osStat] at hs; split at hs <;> simp at hs

theorem PathExists_writeFile {fs : LocalFS} {q : String} (lp : String) (n : Nat)
    (h : PathExists fs q) : PathExists (writeFile fs lp n) q := by
  unfold PathExists writeFile at *
  simp only [lookupNode]
  by_cases hq : q = lp
  · simp [hq]
  · simp [hq, h]

theorem visitFile_store (sfld : syncFolder) (fs : LocalFS) (s : WalkStep) :
    (visitFile sfld fs s).fs = fs ∨
      ∃ n, (visitFile sfld fs s).fs = writeFile fs (localPath sfld s) n := by
  cases ho : s.openErr with
  | some e' => left; simp [visitFile, ho]
  | none =>
    cases hc : chkLocalFile (osStat fs s.statErr (localPath sfld s)) s.srcStat with
    | panic => left; simp [visitFile, ho, hc]
    | ret p =>
      obtain ⟨allow, oe⟩ := p
      cases oe with
      | some e' => left; simp [visitFile, ho, hc]
      | none =>
        cases allow with
        | false => left; simp [visitFile, ho, hc]
        | true =>
          cases hcr : s.createErr with
          | some e' => left; simp [visitFile, ho, hc, hcr]
          | none =>
            cases hcp : s.copyErr with
            | some en =>
              obtain ⟨e', n⟩ := en
              right; exact ⟨n, by simp [visitFile, ho, hc, hcr, hcp]⟩
            | none =>
              cases hsy : s.syncErr with
              | some e' => right; exact ⟨s.size, by simp [visitFile, ho, hc, hcr, hcp, hsy]⟩
              | none => right; exact ⟨s.size, by simp [visitFile, ho, hc, hcr, hcp, hsy]⟩

theorem PathExists_visitStep (sfld : syncFolder) (fs : LocalFS) (s : WalkStep) {q : String}
    (h : PathExists fs q) : PathExists (visitStep sfld fs s).fs q := by
  cases herr : s.err with
  | some e => simpa [visitStep, herr] using h
  | none =>
    by_cases hd : s.isDir = true
    · by_cases hrel : (trimPrefixStr s.path sfld.Remote).length > 0
      · have hv : (visitStep sfld fs s).fs =
            (createIfNotExist fs s.statErr s.mkdirErr (localPath sfld s)).1 := by
          simp [visitStep, herr, hd, hrel]
        rw [hv]
        exact PathExists_createIfNotExist _ _ _ h
      · have hv : (visitStep sfld fs s).fs = fs := by simp [visitStep, herr, hd, hrel]
        rw [hv]; exact h
    · have hd' : s.isDir = false := by simpa using hd
      rw [visitStep_file herr hd']
      rcases visitFile_store sfld fs s with h1 | ⟨n, h1⟩
      · rw [h1]; exact h
      · rw [h1]; exact PathExists_writeFile _ _ h

theorem PathExists_walkSteps (sfld : syncFolder) {q : String} :
    ∀ (steps : List WalkStep) (fs : LocalFS), PathExists fs q →
      PathExists (walkSteps sfld fs steps).fs q := by
  intro steps
  induction steps with
  | nil => intro fs h; exact h
  | cons s rest ih =>
    intro fs h
    cases hf : (visitStep sfld fs s).flow with
    | next =>
      rw [walkSteps_cons_next rest hf]
      exact ih _ (PathExists_visitStep sfld fs s h)
    | abort e =>
      rw [walkSteps_cons_abort rest hf]
      exact PathExists_visitStep sfld fs s h
    | crash =>
      rw [walkSteps_cons_crash rest hf]
      exact PathExists_visitStep sfld fs s h

theorem visitStep_makes_dir (sfld : syncFolder) (fs : LocalFS) (t : WalkStep)
    (hm : t.makesDir sfld = true) (hst : t.statErr = none) (hmk : t.mkdirErr = none) :
    PathExists (visitStep sfld fs t).fs (localPath sfld t) := by
  simp only [WalkStep.makesDir, Bool.and_eq_true, Option.isNone_iff_eq_none,
    decide_eq_true_eq] at hm
  obtain ⟨⟨herr, hd⟩, hrel⟩ := hm
  have hv : (visitStep sfld fs t).fs =
      (createIfNotExist fs t.statErr t.mkdirErr (localPath sfld t)).1 := by
    simp [visitStep, herr, hd, hrel]
  rw [hv, hst, hmk]
  exact PathExists_createIfNotExist_self fs _

/-- After a walk that returned no error, every directory step (no listing
error, non-empty relative path) whose `os.Stat` and `os.MkdirAll` did not fail
has its local counterpart in the store. -/
theorem walkSteps_dirs_exist (sfld : syncFolder) :
    ∀ (pre : List WalkStep) (fs : LocalFS), (walkSteps sfld fs pre).result = .ret none →
      ∀ t ∈ pre, t.makesDir sfld = true → t.statErr = none → t.mkdirErr = none →
        PathExists (walkSteps sfld fs pre).fs (localPath sfld t) := by
  intro pre
  induction pre with
  | nil => intro fs _ t ht; simp at ht
  | cons p rest ih =>
    intro fs hres t ht hm hst hmk
    cases hf : (visitStep sfld fs p).flow with
    | abort e => rw [walkSteps_cons_abort rest hf] at hres; simp at hres
    | crash => rw [walkSteps_cons_crash rest hf] at hres; simp at hres
    | next =>
      rw [walkSteps_cons_next rest hf] at hres ⊢
      simp only at hres ⊢
      rcases List.mem_cons.1 ht with rfl | ht
      · exact PathExists_walkSteps sfld rest _ (visitStep_makes_dir sfld fs t hm hst hmk)
      · exact ih _ hres t ht hm hst hmk

/-- When the traversal yields directories first, every remote ancestor of a
file entry is the path of an earlier directory step without a listing error
(or was seen before the walk started). -/
theorem dirsFirst_split (root : String) (s : WalkStep) (post : List WalkStep)
    (herr : s.err = none) (hd : s.isDir = false) :
    ∀ (pre : List WalkStep) (seen : List String),
      dirsFirst root seen (pre ++ s :: post) = true →
      ∀ d ∈ remoteAncestors root s.path,
        d ∈ seen ∨ ∃ t ∈ pre, t.path = d ∧ t.err = none ∧ t.isDir = true := by
  intro pre
  induction pre with
  | nil =>
    intro seen h d hdm
    simp only [List.nil_append, dirsFirst, herr, hd, Bool.false_eq_true, if_false,
      Bool.and_eq_true, List.all_eq_true, decide_eq_true_eq] at h
    exact Or.inl (h.1 d hdm)
  | cons p pre ih =>
    intro seen h d hdm
    rw [List.cons_append] at h
    cases hperr : p.err with
    | some e =>
      simp only [dirsFirst, hperr] at h
      rcases ih seen h d hdm with h1 | ⟨t, ht, hp⟩
      · exact Or.inl h1
      · exact Or.inr ⟨t, List.mem_cons_of_mem _ ht, hp⟩
    | none =>
      by_cases hpd : p.isDir = true
      · simp only [dirsFirst, hperr, hpd, if_true] at h
        rcases ih (p.path :: seen) h d hdm with h1 | ⟨t, ht, hp⟩
        · rcases List.mem_cons.1 h1 with h2 | h2
          · exact Or.inr ⟨p, List.mem_cons_self _ _, h2.symm, hperr, hpd⟩
          · exact Or.inl h2
        · exact Or.inr ⟨t, List.mem_cons_of_mem _ ht, hp⟩
      · have hpd' : p.isDir = false := by simpa using hpd
        simp only [dirsFirst, hperr, hpd', Bool.false_eq_true, if_false, Bool.and_eq_true] at h
        rcases ih seen h.2 d hdm with h1 | ⟨t, ht, hp⟩
        · exact Or.inl h1
        · exact Or.inr ⟨t, List.mem_cons_of_mem _ ht, hp⟩

/-- C7, amended: when the traversal yields every directory (without a listing
error) before the entries beneath it, then at every `os.Create` of a walk the
call `createIfNotExist` has already been made on the folder's local root and on
the local counterpart of every remote ancestor directory of the file below the
remote root.  When the loop body is entered for a file entry, the local root
exists in the local store unless the `os.Stat` or `os.MkdirAll` made for it
failed, and every remote ancestor of the entry is the path of an earlier
directory step whose local counterpart exists in the store unless the `os.Stat`
or `os.MkdirAll` made for that step failed.  The `createIfNotExist` calls of a
walk are the one on the local root followed by one for each visited directory
step with a non-empty relative path, so the root entry, whose relative path is
empty, gets no call of its own. -/
theorem getFolder_dirs_before_files (sfld : syncFolder) (w : Walk) (fs : LocalFS)
    (h : dirsFirst sfld.Remote [] w.steps = true) :
    (∀ (t1 : List Event) (rp lp : String) (t2 : List Event),
      (getFolder sfld w fs).trace = t1 ++ Event.create rp lp :: t2 →
        Event.ensureDir (filepathJoin [sfld.Local]) ∈ t1 ∧
        ∀ d ∈ remoteAncestors sfld.Remote rp, Event.ensureDir (localDir sfld d) ∈ t1) ∧
    (∀ (pre : List WalkStep) (s : WalkStep) (post : List WalkStep),
      w.steps = pre ++ s :: post → s.err = none → s.isDir = false →
      (walkSteps sfld
        (createIfNotExist fs w.rootStatErr w.rootMkdirErr (filepathJoin [sfld.Local])).1
        pre).result = .ret none →
        (w.rootStatErr = none → w.rootMkdirErr = none →
          PathExists (walkSteps sfld
            (createIfNotExist fs w.rootStatErr w.rootMkdirErr (filepathJoin [sfld.Local])).1
            pre).fs (filepathJoin [sfld.Local])) ∧
        ∀ d ∈ remoteAncestors sfld.Remote s.path,
          ∃ t ∈ pre, t.path = d ∧ t.err = none ∧ t.isDir = true ∧
            (t.statErr = none → t.mkdirErr = none →
              PathExists (walkSteps sfld
                (createIfNotExist fs w.rootStatErr w.rootMkdirErr
                  (filepathJoin [sfld.Local])).1
                pre).fs (localDir sfld d))) ∧
    ensuredDirs (getFolder sfld w fs).trace =
      filepathJoin [sfld.Local] ::
        ((getFolder sfld w fs).visited.filter (WalkStep.makesDir sfld)).map (localPath sfld) ∧
    (∀ s : WalkStep, trimPrefixStr s.path sfld.Remote = "" → s.makesDir sfld = false) := by
  refine ⟨?_, ?_, ?_, ?_⟩
  · intro t1 rp lp t2 htr
    constructor
    · obtain ⟨tl, htl⟩ := getFolder_trace_head sfld w fs
      rw [htl] at htr
      cases t1 with
      | nil => simp at htr
      | cons ev t1 =>
        simp only [List.cons_append, List.cons.injEq] at htr
        rw [← htr.1]
        exact List.mem_cons_self _ _
    · have hcov : createsCovered sfld [] (getFolder sfld w fs).trace = true := by
        unfold getFolder
        simp only [List.append_assoc]
        rw [createsCovered_createIfNotExist, createsCovered_closes]
        apply walkSteps_covered sfld w.steps _ [] _ h
        intro d hd
        simp at hd
      rw [htr] at hcov
      intro d hd
      rcases createsCovered_split sfld t1 [] rp lp t2 hcov d hd with h1 | h1
      · simp at h1
      · exact h1
  · intro pre s post hsteps herr hd hres
    constructor
    · intro hrs hrm
      apply PathExists_walkSteps
      rw [hrs, hrm]
      exact PathExists_createIfNotExist_self fs _
    · intro d hdm
      rw [hsteps] at h
      rcases dirsFirst_split sfld.Remote s post herr hd pre [] h d hdm with h1 | ⟨t, ht, hp, hte, htd⟩
      · simp at h1
      · refine ⟨t, ht, hp, hte, htd, ?_⟩
        intro hst hmk
        have hrel : (trimPrefixStr t.path sfld.Remote).length > 0 := by
          rw [hp]; exact remoteAncestors_rel hdm
        have hm : t.makesDir sfld = true := by
          simp [WalkStep.makesDir, hte, htd, hrel]
        have := walkSteps_dirs_exist sfld pre _ hres t ht hm hst hmk
        have hlp : localPath sfld t = localDir sfld d := by
          unfold localPath localDir; rw [hp]
        rw [← hlp]; exact this
  · unfold getFolder
    simp only [ensuredDirs_append, ensuredDirs_createIfNotExist, ensuredDirs_closes,
      walkSteps_ensuredDirs, List.append_nil, List.singleton_append]
  · intro s hs
    simp [WalkStep.makesDir, hs]

/-- C7, witness: the walk of the end-to-end scenario yields `/data/sub` before
`/data/sub/b.txt`; when `b.txt` is reached, `/backup` and `/backup/sub` exist. -/
theorem getFolder_dirs_before_files_witness :
    dirsFirst dataFolder.Remote [] dataWalk.steps = true ∧
    PathExists (walkSteps dataFolder
      (createIfNotExist emptyFS dataWalk.rootStatErr dataWalk.rootMkdirErr
        (filepathJoin [dataFolder.Local])).1 (dataWalk.steps.take 3)).fs "/backup/sub" ∧
    ensuredDirs (getFolder dataFolder dataWalk emptyFS).trace =
      filepathJoin [dataFolder.Local] ::
        ((getFolder dataFolder dataWalk emptyFS).visited.filter
          (WalkStep.makesDir dataFolder)).map (localPath dataFolder) :=
  ⟨by decide, by decide,
    (getFolder_dirs_before_files dataFolder dataWalk emptyFS (by decide)).2.2.1⟩

/-- C7, counterexample: the traversal yields `/data/sub` before
`/data/sub/b.txt`, but `os.MkdirAll` of `/backup/sub` is refused and the failure
is dropped; when the loop body is entered for `b.txt` and `os.Create` is
called, `/backup/sub` does not exist in the local store. -/
theorem getFolder_creates_without_directory :
    dirsFirst dataFolder.Remote [] subRefusedWalk.steps = true ∧
    "/data/sub" ∈ remoteAncestors dataFolder.Remote "/data/sub/b.txt" ∧
    localDir dataFolder "/data/sub" = "/backup/sub" ∧
    (walkSteps dataFolder
      (createIfNotExist readOnlyFS subRefusedWalk.rootStatErr subRefusedWalk.rootMkdirErr
        (filepathJoin [dataFolder.Local])).1 (subRefusedWalk.steps.take 2)).result
      = .ret none ∧
    ¬ PathExists (walkSteps dataFolder
      (createIfNotExist readOnlyFS subRefusedWalk.rootStatErr subRefusedWalk.rootMkdirErr
        (filepathJoin [dataFolder.Local])).1 (subRefusedWalk.steps.take 2)).fs "/backup/sub" ∧
    (getFolder dataFolder subRefusedWalk readOnlyFS).trace =
      [.ensureDir "/backup", .ensureDir "/backup/sub", .mkdirAll "/backup/sub" false,
        .openSrc "/data/sub/b.txt", .compared "/backup/sub/b.txt" true,
        .create "/data/sub/b.txt" "/backup/sub/b.txt"] ∧
    ¬ PathExists (getFolder dataFolder subRefusedWalk readOnlyFS).fs "/backup/sub" := by
  decide

/-! ## Behaviour of the loops when nothing panics -/

/-- When no walk panics, `getFolders` calls `getFolder` once for every
configured folder, in the configured order, whatever errors the walks
return. -/
theorem getFolders_walks_all_without_panic :
    ∀ (folders : List (syncFolder × Walk)) (fs : LocalFS),
      (getFolders fs folders).crashed = false →
      (getFolders fs folders).walked = folders.map Prod.fst ∧
        (getFolders fs folders).results.length = folders.length := by
  intro folders
  induction folders with
  | nil => intro fs _; simp [getFolders]
  | cons fw rest ih =>
    obtain ⟨sfld, w⟩ := fw
    intro fs hc
    cases hres : (getFolder sfld w fs).result with
    | panic =>
      rw [getFolders_cons_panic rest hres] at hc
      simp at hc
    | ret oe =>
      cases oe with
      | none =>
        rw [getFolders_cons_ok rest hres] at hc ⊢
        obtain ⟨i1, i2⟩ := ih _ hc
        simp [i1, i2]
      | some e =>
        rw [getFolders_cons_err rest hres] at hc ⊢
        obtain ⟨i1, i2⟩ := ih _ hc
        simp [i1, i2]

/-- A walk that returns no error has entered the loop body for every step. -/
theorem walkSteps_ok_visits_all (sfld : syncFolder) :
    ∀ (steps : List WalkStep) (fs : LocalFS),
      (walkSteps sfld fs steps).result = .ret none →
      (walkSteps sfld fs steps).visited = steps := by
  intro steps
  induction steps with
  | nil => intro fs _; rfl
  | cons s rest ih =>
    intro fs h
    cases hf : (visitStep sfld fs s).flow with
    | abort e => rw [walkSteps_cons_abort rest hf] at h; simp at h
    | crash => rw [walkSteps_cons_crash rest hf] at h; simp at h
    | next =>
      rw [walkSteps_cons_next rest hf] at h ⊢
      simp only at h ⊢
      rw [ih _ h]

/-- The walk stops at the first step whose loop body returns an error: the
error is returned and no later step is visited. -/
theorem walkSteps_stops_at_first_error (sfld : syncFolder) (s : WalkStep)
    (post : List WalkStep) (e : Err) :
    ∀ (pre : List WalkStep) (fs : LocalFS),
      (walkSteps sfld fs pre).result = .ret none →
      (visitStep sfld (walkSteps sfld fs pre).fs s).flow = .abort e →
      (walkSteps sfld fs (pre ++ s :: post)).result = .ret (some e) ∧
        (walkSteps sfld fs (pre ++ s :: post)).visited = pre ++ [s] := by
  intro pre
  induction pre with
  | nil =>
    intro fs _ hs
    have hs' : (visitStep sfld fs s).flow = .abort e := hs
    rw [List.nil_append, walkSteps_cons_abort post hs']
    exact ⟨rfl, rfl⟩
  | cons p pre ih =>
    intro fs h hs
    cases hf : (visitStep sfld fs p).flow with
    | abort e' => rw [walkSteps_cons_abort pre hf] at h; simp at h
    | crash => rw [walkSteps_cons_crash pre hf] at h; simp at h
    | next =>
      rw [walkSteps_cons_next pre hf] at h hs
      simp only at h hs
      rw [List.cons_append, walkSteps_cons_next _ hf]
      obtain ⟨i1, i2⟩ := ih _ h hs
      simp only
      exact ⟨i1, by rw [i2]; rfl⟩

/-- A step that reports a listing error is skipped: the store is untouched, no
call is made and the walk goes on with the next step. -/
theorem visitStep_listing_error (sfld : syncFolder) (fs : LocalFS) (s : WalkStep) (e : Err)
    (h : s.err = some e) : visitStep sfld fs s = ⟨.next, fs, [], []⟩ := by
  simp [visitStep, h]

end Gftp
